import Mathlib

/-!
Verification of the paperchecker decision-reconciliation core.

This file gives a shallow embedding, in Lean 4, of the decision model and the
reconciliation pipeline of the repository (src/paperchecker_utils.py and
src/script.py), together with theorems settling the frozen specification
claims.  JSON values are modelled by an inductive type `Json`; Python dicts
are insertion-ordered association lists with unique keys (well-formedness is
`Json.wf`), ints and floats are modelled by `ℤ` and `ℚ` respectively, and
in-place mutation is translated to explicit state passing.  Fallible
operations return `Except`/`Option`.
-/

/-- JSON value, the dynamic value domain of the Python source.  Python `int`
and `float` are separate constructors (the source distinguishes them, e.g.
via `str()`); numbers are exact (`ℤ`/`ℚ`), so float rounding is not modelled.
Objects are insertion-ordered association lists, matching Python dicts. -/
inductive Json where
  | null : Json
  | bool (b : Bool) : Json
  | int (n : ℤ) : Json
  | float (q : ℚ) : Json
  | str (s : String) : Json
  | arr (xs : List Json) : Json
  | obj (kvs : List (String × Json)) : Json

/-- Python `d[k]` / `k in d` lookup on an association list: first match wins
(association lists with unique keys, as produced by Python dicts). -/
def lookupKey {α : Type} : List (String × α) → String → Option α
  | [], _ => none
  | (k', v') :: rest, k => if k' = k then some v' else lookupKey rest k

/-- Python `d[k] = v` on an association list: replaces the value at the first
occurrence of `k` keeping its position, else appends `(k, v)` at the end —
exactly the insertion-order behaviour of Python dict assignment. -/
def setKey {α : Type} : List (String × α) → String → α → List (String × α)
  | [], k, v => [(k, v)]
  | (k', v') :: rest, k, v =>
      if k' = k then (k', v) :: rest else (k', v') :: setKey rest k v

/-- Python truthiness of a JSON value (`if x:`): `None`, `False`, `0`, `0.0`,
`""`, `[]` and `{}` are falsy, everything else truthy. -/
def jtruthy : Json → Bool
  | .null => false
  | .bool b => b
  | .int n => !(n == 0)
  | .float q => !(q == 0)
  | .str s => !(s == "")
  | .arr xs => !xs.isEmpty
  | .obj l => !l.isEmpty

/-- Test for the JSON null value (Python `x is None`). -/
def Json.isNull : Json → Bool
  | .null => true
  | _ => false

/-- Pairwise-distinct strings (the key lists of Python dicts). -/
def keysNodup : List String → Bool
  | [] => true
  | k :: ks => !ks.contains k && keysNodup ks

mutual
/-- Well-formedness: every object in the tree has pairwise-distinct keys.
This is an invariant of every value coming from Python (dict keys are
unique); theorems that need it take it as a hypothesis. -/
def Json.wf : Json → Bool
  | .null => true
  | .bool _ => true
  | .int _ => true
  | .float _ => true
  | .str _ => true
  | .arr xs => jsonListWf xs
  | .obj l => keysNodup (l.map Prod.fst) && jsonKVListWf l

/-- All members of a list of JSON values are well-formed. -/
def jsonListWf : List Json → Bool
  | [] => true
  | x :: xs => x.wf && jsonListWf xs

/-- All values of an association list are well-formed. -/
def jsonKVListWf : List (String × Json) → Bool
  | [] => true
  | (_, v) :: rest => v.wf && jsonKVListWf rest
end

/-- Python `==` on JSON values: numbers (`bool`/`int`/`float`) compare by
numeric value across types (`True == 1 == 1.0` in Python), strings compare
textually, lists elementwise, dicts by key set and values (order-insensitive;
faithful for unique-key dicts), `None` only equals `None`, and any other
cross-type comparison is unequal. -/
def pyNum? : Json → Option ℚ
  | .bool b => some (if b then 1 else 0)
  | .int n => some (n : ℚ)
  | .float q => some q
  | _ => none

mutual
/-- Python `==` on JSON values (see `pyNum?`). -/
def pyEq : Json → Json → Bool
  | a, b =>
    match pyNum? a, pyNum? b with
    | some x, some y => x == y
    | _, _ =>
      match a, b with
      | .null, .null => true
      | .str s, .str t => s == t
      | .arr xs, .arr ys => pyEqArr xs ys
      | .obj xs, .obj ys => (xs.length == ys.length) && pyEqObjSub xs ys
      | _, _ => false

/-- Elementwise Python `==` on lists. -/
def pyEqArr : List Json → List Json → Bool
  | [], [] => true
  | x :: xs, y :: ys => pyEq x y && pyEqArr xs ys
  | _, _ => false

/-- Every key of the first association list maps, in the second, to a
Python-equal value (one inclusion of Python dict equality; with the length
check this is dict equality for unique-key dicts). -/
def pyEqObjSub : List (String × Json) → List (String × Json) → Bool
  | [], _ => true
  | (k, v) :: rest, ys =>
      (match lookupKey ys k with
       | some w => pyEq v w
       | none => false) && pyEqObjSub rest ys
end

/-! ## String primitives

The Python string methods the source relies on (`strip`, `split`,
`replace`, `isdigit`, `startswith`, `str()` of an integer) are modelled
directly over character lists so that every definition evaluates by kernel
reduction on concrete inputs. -/

/-- Python `str.strip()`: drop whitespace from both ends. -/
def pyStrip (s : String) : String :=
  String.mk (((s.data.dropWhile Char.isWhitespace).reverse.dropWhile Char.isWhitespace).reverse)

/-- Python `s.split("/")`: split at every slash; adjacent/leading/trailing
slashes give empty fields, and the empty string gives `[""]`. -/
def splitOnSlashGo (cur : List Char) : List Char → List (List Char)
  | [] => [cur.reverse]
  | c :: rest =>
      if c = '/' then cur.reverse :: splitOnSlashGo [] rest
      else splitOnSlashGo (c :: cur) rest

/-- Python `s.replace(ab, r)` for a two-character pattern `ab` and a
one-character replacement `r`: left-to-right, non-overlapping. -/
def replaceTwo (a b r : Char) : List Char → List Char
  | [] => []
  | [c] => [c]
  | c :: c' :: rest =>
      if c = a && c' = b then r :: replaceTwo a b r rest
      else c :: replaceTwo a b r (c' :: rest)

/-- Python `s.startswith(c)` for a one-character prefix. -/
def strStartsWith (s : String) (c : Char) : Bool :=
  match s.data with
  | d :: _ => d = c
  | [] => false

/-- Numeric value of a list of decimal digits. -/
def digitsVal (ds : List Char) : ℕ :=
  ds.foldl (fun acc c => 10 * acc + (c.toNat - '0'.toNat)) 0

/-- Python `token.isdigit()` followed by `int(token)`: a nonempty all-digit
string yields its value, anything else is rejected. -/
def parseIndex (t : String) : Option ℕ :=
  match t.data with
  | [] => none
  | cs => if cs.all Char.isDigit then some (digitsVal cs) else none

/-- The decimal digit character for `d < 10`. -/
def digitChar : ℕ → Char
  | 0 => '0' | 1 => '1' | 2 => '2' | 3 => '3' | 4 => '4'
  | 5 => '5' | 6 => '6' | 7 => '7' | 8 => '8' | _ => '9'

/-- Decimal digits of `n` (fuel-driven so that it evaluates by kernel
reduction; the fuel `n + 1` always suffices). -/
def natToCharsAux : ℕ → ℕ → List Char
  | 0, _ => []
  | fuel + 1, n =>
      if n < 10 then [digitChar n]
      else natToCharsAux fuel (n / 10) ++ [digitChar (n % 10)]

/-- Python `str(n)` for a natural number. -/
def natToString (n : ℕ) : String :=
  String.mk (natToCharsAux (n + 1) n)

/-- Python `str(n)` for an integer. -/
def intToString (n : ℤ) : String :=
  if n < 0 then "-" ++ natToString n.natAbs else natToString n.natAbs

/-! ## paperchecker_utils.py -/

/-- Exponent part of a Python float literal: optional sign then a nonempty
digit run, consuming the whole remainder. -/
def parseExpTail (cs : List Char) : Option ℤ :=
  match cs with
  | '+' :: r => if r ≠ [] ∧ r.all Char.isDigit then some (digitsVal r : ℤ) else none
  | '-' :: r => if r ≠ [] ∧ r.all Char.isDigit then some (-(digitsVal r : ℤ)) else none
  | r => if r ≠ [] ∧ r.all Char.isDigit then some (digitsVal r : ℤ) else none

/-- Mantissa-and-exponent parse of a Python float literal after the optional
sign: `digits [. digits] [e|E exp]` or `. digits [e|E exp]`, with at least
one digit overall.  `inf`/`nan` literals and digit-group underscores, which
`float()` also accepts, are not modelled (no claim depends on them: they
never produce a rational and the call sites fall back to raw equality). -/
def parseMantissa (cs : List Char) : Option ℚ :=
  let intDigits := cs.takeWhile Char.isDigit
  let r2 := cs.dropWhile Char.isDigit
  let fracPair : Option (List Char × List Char) :=
    match r2 with
    | '.' :: r' => some (r'.takeWhile Char.isDigit, r'.dropWhile Char.isDigit)
    | _ => some ([], r2)
  match fracPair with
  | none => none
  | some (fracDigits, r3) =>
    if intDigits = [] ∧ fracDigits = [] then none
    else
      let mant : ℚ :=
        (digitsVal intDigits : ℚ) + (digitsVal fracDigits : ℚ) / (10 : ℚ) ^ fracDigits.length
      match r3 with
      | [] => some mant
      | 'e' :: r4 => (parseExpTail r4).map (fun e => mant * (10 : ℚ) ^ e)
      | 'E' :: r4 => (parseExpTail r4).map (fun e => mant * (10 : ℚ) ^ e)
      | _ => none

/-- Python `float(s)` on an already-stripped string, as an exact rational:
optional sign then mantissa/exponent (see `parseMantissa`). -/
def parseFloat (s : String) : Option ℚ :=
  match s.data with
  | '+' :: r => parseMantissa r
  | '-' :: r => (parseMantissa r).map (fun q => -q)
  | r => parseMantissa r

/-- Embeds `coerce_float` (src/paperchecker_utils.py): native numbers (Python
`bool` is an `int`, so `True`/`False` coerce to `1.0`/`0.0`) pass through,
strings are stripped and parsed as float literals, anything else is `none`
(never raises). -/
def coerce_float : Json → Option ℚ
  | .bool b => some (if b then 1 else 0)
  | .int n => some (n : ℚ)
  | .float q => some q
  | .str s => parseFloat (pyStrip s)
  | _ => none

/-- Default absolute tolerance `NUMERIC_TOL_ABS = 0.01`, as an exact
rational. -/
def NUMERIC_TOL_ABS : ℚ := 1 / 100

/-- Default relative tolerance `NUMERIC_TOL_REL = 0.01`, as an exact
rational. -/
def NUMERIC_TOL_REL : ℚ := 1 / 100

/-- Embeds `values_match` (src/paperchecker_utils.py): both-`None` matches;
two strings compare stripped; otherwise if both sides coerce to numbers they
match when the absolute difference is within `abs_tol` or, for nonzero `b`,
the relative difference against `b` is within `rel_tol`; the final fallback
is Python `==`. -/
def values_match (a b : Json) (abs_tol rel_tol : ℚ) : Bool :=
  if a.isNull && b.isNull then true
  else
    match a, b with
    | .str s, .str t => pyStrip s == pyStrip t
    | _, _ =>
      match coerce_float a, coerce_float b with
      | some fa, some fb =>
          if |fa - fb| ≤ abs_tol then true
          else if 0 < |fb| ∧ |fa - fb| / |fb| ≤ rel_tol then true
          else pyEq a b
      | _, _ => pyEq a b

/-- Unescapes one JSON-pointer token: `~1` → `/` then `~0` → `~`. -/
def unescapeToken (t : List Char) : String :=
  String.mk (replaceTwo '~' '0' '~' (replaceTwo '~' '1' '/' t))

/-- Pointer parsing shared by `json_pointer_get`/`json_pointer_set`: strip
leading slashes (`lstrip("/")`), split on `/`, unescape each token. -/
def parsePointer (ptr : String) : List String :=
  (splitOnSlashGo [] (ptr.data.dropWhile (fun c => c = '/'))).map unescapeToken

/-- Token walk of `json_pointer_get`: list segments need an in-range
all-digit index, map segments a present key; any failure returns null (reads
are lenient by design). -/
def getTokens : Json → List String → Json
  | cur, [] => cur
  | cur, t :: rest =>
    match cur with
    | .arr xs =>
        match parseIndex t with
        | none => .null
        | some i => if h : i < xs.length then getTokens xs[i] rest else .null
    | .obj l =>
        match lookupKey l t with
        | some v => getTokens v rest
        | none => .null
    | _ => .null

/-- Embeds `json_pointer_get` (src/paperchecker_utils.py).  Python returns
`None` on any failed step; `Json.null` plays that role here (the source never
distinguishes a stored null from a failed read). -/
def json_pointer_get (obj : Json) (ptr : String) : Json :=
  if ptr = "" ∨ ptr = "/" then obj else getTokens obj (parsePointer ptr)

/-- Token walk of `json_pointer_set`, state-passing: returns the updated root
or the `ValueError` message the source raises.  (On error the Python source
leaves earlier in-place mutations behind; only the raised error is observable
to callers, which is what the `Except` models.) -/
def setTokens : Json → List String → Json → Except String Json
  | cur, [], _ => .ok cur
  | .arr xs, t :: rest, v =>
      match parseIndex t with
      | none => .error ("json pointer list index is not an integer: " ++ t)
      | some i =>
          if h : i < xs.length then
            if rest.isEmpty then .ok (.arr (xs.set i v))
            else (setTokens xs[i] rest v).map (fun r => .arr (xs.set i r))
          else .error ("json pointer list index out of range: " ++ natToString i)
  | .obj l, t :: rest, v =>
      if rest.isEmpty then .ok (.obj (setKey l t v))
      else
        let child :=
          match lookupKey l t with
          | some (.arr ys) => Json.arr ys
          | some (.obj m) => Json.obj m
          | _ => Json.obj []
        (setTokens child rest v).map (fun r => .obj (setKey l t r))
  | _, _ :: _, _ => .error "json pointer target is not a container"

/-- Embeds `json_pointer_set` (src/paperchecker_utils.py): empty/root
pointers are rejected, then the token walk runs (see `setTokens`). -/
def json_pointer_set (obj : Json) (ptr : String) (v : Json) : Except String Json :=
  if ptr = "" ∨ ptr = "/" then .error "json pointer cannot be empty when setting"
  else setTokens obj (parsePointer ptr) v

/-- True exactly on the error case of an `Except` (a raised `ValueError`). -/
def isError {ε α : Type} : Except ε α → Bool
  | .error _ => true
  | .ok _ => false

/-- Regex word character (`\w`): ASCII letter, digit or underscore. -/
def isWordChar (c : Char) : Bool := c.isAlphanum || c = '_'

/-- Match attempt of `\bPAGE\s+(\d+)\b` at one position: `prev` is the
character before the position (`none` at the start of the string). -/
def pageMatchAt (prev : Option Char) (cs : List Char) : Option ℕ :=
  let boundaryBefore := match prev with
    | none => true
    | some c => !isWordChar c
  if !boundaryBefore then none
  else
    match cs with
    | 'P' :: 'A' :: 'G' :: 'E' :: r1 =>
        let ws := r1.takeWhile Char.isWhitespace
        let r2 := r1.dropWhile Char.isWhitespace
        if ws.isEmpty then none
        else
          let ds := r2.takeWhile Char.isDigit
          let r3 := r2.dropWhile Char.isDigit
          if ds.isEmpty then none
          else
            match r3 with
            | [] => some (digitsVal ds)
            | c :: _ => if isWordChar c then none else some (digitsVal ds)
    | _ => none

/-- Leftmost-match scan for `\bPAGE\s+(\d+)\b` (Python `re.search`). -/
def pageScan : Option Char → List Char → Option ℕ
  | prev, cs =>
    match pageMatchAt prev cs with
    | some n => some n
    | none =>
        match cs with
        | [] => none
        | c :: rest => pageScan (some c) rest

/-- Embeds `extract_page_from_evidence` (src/paperchecker_utils.py): first
`\bPAGE\s+(\d+)\b` match in the evidence text, as a number.  (The source's
`int()` cannot fail on a digit run, so its dead `except` branch has no
counterpart.) -/
def extract_page_from_evidence (evidence_text : String) : Option ℕ :=
  pageScan none evidence_text.data

/-- A decision: one field-level claim produced by an extraction task
(src/script.py decision dicts).  A missing `path`/`evidence` key behaves
exactly like `""` at every use site (only truthiness is tested), and a
missing `value` like null, so those are conflated; `page` keeps the
absent/present distinction the source tests with `is None`. -/
structure Decision where
  path : String
  value : Json
  evidence : String
  page : Option ℕ
  is_critical : Bool

/-- One per-path verifier review (element of `decision_reviews`).  `status`
and `proposed_value` keep the key-present/absent distinction because the
source reads them with one- and two-argument `dict.get`; for the other fields
a missing key behaves like the modelled default at every use site. -/
structure DecisionReview where
  path : String
  status : Option String
  driver_value : Json
  proposed_value : Option Json
  explanation : String
  evidence : String

/-- One verifier pass: the per-path reviews plus the suggested patch
(`Json.null` models an absent/null patch; only `dict`-typed nonempty patches
are ever applied).  Fields of the pass not read by the reconciliation core
(verdict, rationale, confidence) are not modelled. -/
structure VerifierPass where
  decision_reviews : List DecisionReview
  suggested_patch : Json

/-- One extraction task result, restricted to the field the decision
utilities read (`result.get("decisions") or []`). -/
structure TaskResult where
  decisions : List Decision

/-- A validation issue (severity/code/message/path), as built by
`compile_critical_decision_report` and `rule_validation`. -/
structure Issue where
  severity : String
  code : String
  message : String
  path : String
  deriving DecidableEq

/-- One entry of the critical-decision report. -/
structure CriticalEntry where
  path : String
  final_value : Json
  status : String
  explanation : String
  evidence : String

/-- Embeds `dedupe_decisions`'s loop state: the insertion-ordered path list
and the path→decision map, folded over the remaining decisions; at the end
the map is read back in list order. -/
def dedupeGo : List String → List (String × Decision) → List Decision → List Decision
  | order, m, [] => order.filterMap (fun p => lookupKey m p)
  | order, m, d :: rest =>
      if d.path == "" then dedupeGo order m rest
      else
        let order' := if (lookupKey m d.path).isSome
          then order.filter (fun p => !(p == d.path)) else order
        dedupeGo (order' ++ [d.path]) (setKey m d.path d) rest

/-- Embeds `dedupe_decisions` (src/paperchecker_utils.py): iterate all
decisions of all task results in order; a decision without a path is dropped;
a repeated path is moved to the end of the ordering and its decision
overwritten (move-to-end, latest wins). -/
def dedupe_decisions (task_results : List TaskResult) : List Decision :=
  dedupeGo [] [] (task_results.map (fun r => r.decisions)).flatten

/-! ## script.py -/

mutual
/-- Patch-merge step for one key of the patch (`out[k] = ...` in
`deep_merge`): when the key is present in the base and both values are dicts
the merge recurses, otherwise the patch value wins wholesale. -/
def mergeKey (as' : List (String × Json)) (k : String) (v : Json) :
    List (String × Json) :=
  match lookupKey as' k, v with
  | some (.obj xs), .obj ys => setKey as' k (.obj (deepMergeList xs ys))
  | _, _ => setKey as' k v
termination_by sizeOf v

/-- Key-wise fold of a patch association list into a base association list
(the `for k, v in b.items()` loop of `deep_merge`). -/
def deepMergeList : List (String × Json) → List (String × Json) → List (String × Json)
  | as', [] => as'
  | as', (k, v) :: rest => deepMergeList (mergeKey as' k v) rest
termination_by _ bs => sizeOf bs
end

/-- Embeds `deep_merge` (src/script.py): if either side is not a dict the
patch wins wholesale; dicts merge key-wise, recursing where both values are
dicts.  The source deep-copies and returns a fresh structure; here values are
immutable, so the deep copies are identities. -/
def deep_merge : Json → Json → Json
  | .obj as', .obj bs => .obj (deepMergeList as' bs)
  | _, b => b

/-- Embeds `decisions_only_non_null` (src/script.py): decisions whose value
is null are dropped; a kept decision with no page but nonempty evidence gets
its page backfilled from the evidence text. -/
def decisions_only_non_null : List Decision → List Decision
  | [] => []
  | d :: rest =>
      if d.value.isNull then decisions_only_non_null rest
      else
        let d' :=
          if d.page.isNone && !(d.evidence == "") then
            match extract_page_from_evidence d.evidence with
            | some n => Decision.mk d.path d.value d.evidence (some n) d.is_critical
            | none => d
          else d
        d' :: decisions_only_non_null rest

/-- Embeds `chunk_list` (src/script.py): split a list into consecutive slices
of length `n` (`xs[i:i+n]` for `i = 0, n, 2n, ...`).  The source raises on
`n = 0` (`range` step zero); that case is mapped to `[]` and every claim
assumes `1 ≤ n`. -/
def chunk_list {α : Type} : List α → ℕ → List (List α)
  | [], _ => []
  | x :: rest, n =>
      if _h : n = 0 then []
      else (x :: rest).take n :: chunk_list ((x :: rest).drop n) n
termination_by xs _ => xs.length
decreasing_by
  simp [List.length_drop]
  omega

/-- `VERIFIER_CHUNK_SIZE = 24` (src/script.py). -/
def VERIFIER_CHUNK_SIZE : ℕ := 24

/-- Embeds the decision-selection and chunking stage of `verify_decisions`
(src/script.py): the non-null decisions of one task result, split into
verifier-call chunks.  The verifier calls themselves are external; the
decisions appearing in these chunks are exactly the decisions submitted for
review. -/
def verify_decisions_chunks (task_decisions : List Decision) : List (List Decision) :=
  chunk_list (decisions_only_non_null task_decisions) VERIFIER_CHUNK_SIZE

/-- Value of key `k` of `j`, null when `j` is not an object or lacks the key
(models the source's `(x.get(k) or {})`-style lenient reads; a truthy
non-dict intermediate, on which the source would raise `AttributeError`, is
outside the modelled domain). -/
def dictGet (j : Json) (k : String) : Json :=
  match j with
  | .obj l => (lookupKey l k).getD .null
  | _ => .null

/-- Models `str(v).strip() == t` for the score-token tests of
`compute_scores_inplace` (`t` is one of `"1"`, `"+1"`, `"-1"`): only an
`int` or a stripped string can render equal to those tokens — `str(None)`,
`str(True)`/`str(False)`, `str()` of a float (always containing `.` or `e`)
and `str()` of a list/dict (bracketed) never do. -/
def pyStrStripEq (v : Json) (t : String) : Bool :=
  match v with
  | .int n => intToString n == t
  | .str s => pyStrip s == t
  | _ => false

/-- Embeds `_is_yes` (src/script.py): a string stripping to `"Yes"`;
everything else (including `None`) is not a yes. -/
def is_yes : Json → Bool
  | .str s => pyStrip s == "Yes"
  | _ => false

/-- Python `max(0, t)` on integers. -/
def pyMax0 (t : ℤ) : ℤ := if t < 0 then 0 else t

/-- Jadad-like RCT score (`compute_scores_inplace`, rct branch): +1 per
`"1"`-valued core question, ±1 for the two signed method questions, floored
at zero, stored under `total_score`. -/
def scoreRct (rct : List (String × Json)) : List (String × Json) :=
  let base : ℤ :=
    (["q1_randomized", "q3_double_blind", "q5_withdrawals_dropouts"].countP
      (fun k => pyStrStripEq ((lookupKey rct k).getD .null) "1") : ℤ)
  let signed : ℤ :=
    (["q2_randomization_method", "q4_blinding_method"].map
      (fun k =>
        let vv := (lookupKey rct k).getD .null
        if pyStrStripEq vv "+1" then (1 : ℤ)
        else if pyStrStripEq vv "-1" then (-1 : ℤ) else 0)).sum
  setKey rct "total_score" (.int (pyMax0 (base + signed)))

/-- Sum-of-yes score (`compute_scores_inplace`, case-series and systematic
branches): count of `q*` keys whose value is a yes, stored under
`total_score`. -/
def scoreYesCount (l : List (String × Json)) : List (String × Json) :=
  let qKeys := (l.map Prod.fst).filter (fun k => strStartsWith k 'q')
  setKey l "total_score" (.int (qKeys.countP (fun k => is_yes ((lookupKey l k).getD .null)) : ℤ))

/-- Applies `f` to the value at `k` when that value is a dict, else leaves
the list unchanged (the `isinstance(..., dict)` guards of
`compute_scores_inplace`). -/
def updateIfObj (l : List (String × Json)) (k : String)
    (f : List (String × Json) → List (String × Json)) : List (String × Json) :=
  match lookupKey l k with
  | some (.obj x) => setKey l k (.obj (f x))
  | _ => l

/-- Embeds `compute_scores_inplace` (src/script.py), state-passing: scores
the rct, case-series and systematic appraisal sheets in place when they are
dicts.  When the record/sheets chain is missing the source mutates fresh
throwaway dicts, i.e. changes nothing — modelled by returning the input. -/
def compute_scores_inplace (final_obj : Json) : Json :=
  match final_obj with
  | .obj top =>
    (match lookupKey top "record" with
     | some (.obj rec) =>
       (match lookupKey rec "sheets" with
        | some (.obj sheets) =>
            let sheets1 := updateIfObj sheets "rct_appraisal" scoreRct
            let sheets2 := updateIfObj sheets1 "case_series_appraisal" scoreYesCount
            let sheets3 := updateIfObj sheets2 "systematic_appraisal" scoreYesCount
            Json.obj (setKey top "record" (.obj (setKey rec "sheets" (.obj sheets3))))
        | _ => final_obj)
     | _ => final_obj)
  | _ => final_obj

/-- Embeds `rule_validation` (src/script.py): WARN issues for an unexpected
`mronj_development` value and for route flags conflicting with
`route_not_reported` (Python `== 1` is numeric equality, so `1`, `1.0` and
`True` all count as set). -/
def rule_validation (final_obj : Json) : List Issue :=
  let inc : List (String × Json) :=
    match dictGet (dictGet (dictGet final_obj "record") "sheets") "included_articles" with
    | .obj l => l
    | _ => []
  let mdev := (lookupKey inc "mronj_development").getD .null
  let mdevOk : Bool :=
    match mdev with
    | .null => true
    | .str s => s == "Yes" || s == "No"
    | _ => false
  let issues1 : List Issue :=
    if mdevOk then []
    else [⟨"WARN", "MRONJ_DEV_UNEXPECTED",
           "mronj_development should be Yes/No/blank to match template.",
           "/record/sheets/included_articles/mronj_development"⟩]
  let routeNr := pyEq ((lookupKey inc "route_not_reported").getD .null) (.int 1)
  let routeAny :=
    ["route_iv", "route_oral", "route_im", "route_subcutaneous", "route_both"].any
      (fun k => pyEq ((lookupKey inc k).getD .null) (.int 1))
  let issues2 : List Issue :=
    if routeNr && routeAny then
      [⟨"WARN", "ROUTE_NR_CONFLICT",
        "route_not_reported is set but other route flags are also set.",
        "/record/sheets/included_articles"⟩]
    else []
  issues1 ++ issues2

/-- The latest-review-by-path map of `compile_critical_decision_report`:
passes in order, reviews in order, later writes winning (a review without a
truthy path is skipped). -/
def buildLatestMap (passes : List VerifierPass) : List (String × DecisionReview) :=
  passes.foldl
    (fun m p =>
      p.decision_reviews.foldl
        (fun m' dr => if dr.path == "" then m' else setKey m' dr.path dr) m)
    []

/-- Entry/issue construction loop of `compile_critical_decision_report`: per
decision (skipping pathless ones), a MISSING entry plus CRITICAL issue when
no review exists, else an entry from the latest review (status defaulting to
UNSURE, final value from `proposed_value` when that key is present else
`driver_value`), with a CRITICAL issue for DISAGREE/UNSURE. -/
def compileEntries (latest : List (String × DecisionReview)) (final_driver : Json) :
    List Decision → List CriticalEntry × List Issue
  | [] => ([], [])
  | d :: rest =>
      let tail := compileEntries latest final_driver rest
      if d.path == "" then tail
      else
        match lookupKey latest d.path with
        | none =>
            (⟨d.path, json_pointer_get final_driver d.path, "MISSING",
              "Missing verifier review for decision.", ""⟩ :: tail.1,
             ⟨"CRITICAL", "MISSING_VERIFIER_REVIEW",
              "Decision not reviewed by verifier: " ++ d.path, d.path⟩ :: tail.2)
        | some review =>
            let status := review.status.getD "UNSURE"
            let finalVal :=
              match review.proposed_value with
              | some v => v
              | none => review.driver_value
            let e : CriticalEntry := ⟨d.path, finalVal, status, review.explanation, review.evidence⟩
            if status == "DISAGREE" || status == "UNSURE" then
              (e :: tail.1,
               ⟨"CRITICAL", "VERIFIER_" ++ status,
                "Verifier status " ++ status ++ " for decision: " ++ d.path, d.path⟩ :: tail.2)
            else (e :: tail.1, tail.2)

/-- Embeds `compile_critical_decision_report` (src/script.py). -/
def compile_critical_decision_report (verifier_passes : List VerifierPass)
    (decisions_non_null : List Decision) (final_driver : Json) :
    List CriticalEntry × List Issue :=
  compileEntries (buildLatestMap verifier_passes) final_driver decisions_non_null

/-- The final reconciled object (`build_final_object`'s result dict), with
the claim-relevant fields as typed components. -/
structure FinalObject where
  version : String
  paper_id : Json
  study_type : Json
  record : Json
  verifier_model : String
  passes : List VerifierPass
  critical_decisions : List CriticalEntry
  needs_human_review : Bool
  issues : List Issue

/-- Patch-application fold of `build_final_object`: every pass's
`suggested_patch` that is a nonempty dict is deep-merged, in pass order. -/
def foldPatches (working : Json) (passes : List VerifierPass) : Json :=
  passes.foldl
    (fun m p =>
      match p.suggested_patch with
      | .obj l => if l.isEmpty then m else deep_merge m (.obj l)
      | _ => m)
    working

/-- The fully merged and scored record `build_final_object` works on. -/
def mergedRecordOf (working : Json) (passes : List VerifierPass) : Json :=
  compute_scores_inplace (foldPatches working passes)

/-- Embeds `build_final_object` (src/script.py): apply all suggested patches,
compute scores, compile the critical-decision report, append the rule-
validation issues, and set `needs_human_review` iff any issue is CRITICAL. -/
def build_final_object (working_obj : Json) (verifier_passes : List VerifierPass)
    (decisions_non_null : List Decision) (verifier_model : String) : FinalObject :=
  let merged := mergedRecordOf working_obj verifier_passes
  let cr := compile_critical_decision_report verifier_passes decisions_non_null merged
  let issues := cr.2 ++ rule_validation merged
  let paperId :=
    let p := dictGet merged "paper_id"
    if jtruthy p then p else .obj [("pmid", .null), ("doi", .null), ("title", .null)]
  let studyType :=
    (match merged with
     | .obj l => lookupKey l "study_type"
     | _ => none).getD (.str "unclear")
  let record :=
    let r := dictGet merged "record"
    if jtruthy r then r else .obj [("sheets", .obj [])]
  ⟨"2.0", paperId, studyType, record, verifier_model, verifier_passes, cr.1,
   issues.any (fun i => i.severity == "CRITICAL"), issues⟩

/-- Embeds the output stage of `run_pipeline_for_pdf` (src/script.py): the
final object is built by `build_final_object` and then handed unconditionally
to the spreadsheet writer, the report-document writer and the audit-JSON
dump.  `none` would model refusing to produce output; no branch of the source
returns it — the construction is total and the three writes are
unconditional. -/
def pipeline_output (working : Json) (passes : List VerifierPass)
    (decisions_non_null : List Decision) (verifier_model : String) : Option FinalObject :=
  some (build_final_object working passes decisions_non_null verifier_model)

/-! ## Definitions written from the spec's words (refinement targets) -/

/-- Spec-side characterisation of `dedupe_decisions` ("final ordering
reflects each path's last occurrence; latest wins; pathless decisions
dropped"): keep a decision exactly when it has a path and no later decision
repeats that path. -/
def lastOccurrenceSpec : List Decision → List Decision
  | [] => []
  | d :: rest =>
      if d.path == "" || rest.any (fun x => x.path == d.path)
      then lastOccurrenceSpec rest
      else d :: lastOccurrenceSpec rest

/-- Spec-side error condition of `json_pointer_set`'s walk ("a sequence index
is non-numeric or out of range, or an intermediate non-container is
encountered"); missing or wrong-typed map keys are auto-vivified as fresh
empty maps, and a fresh empty map never produces an error. -/
def errWalk : Json → List String → Bool
  | _, [] => false
  | .arr xs, t :: rest =>
      (match parseIndex t with
       | none => true
       | some i => if h : i < xs.length then errWalk xs[i] rest else true)
  | .obj l, t :: rest =>
      (match lookupKey l t with
       | some (.arr ys) => errWalk (.arr ys) rest
       | some (.obj m) => errWalk (.obj m) rest
       | _ => false)
  | _, _ :: _ => true

/-- Nested single-key maps wrapping `v`: the structure auto-vivification
builds under a fresh empty map (maps only — never sequences). -/
def vivify (ts : List String) (v : Json) : Json :=
  ts.foldr (fun t acc => .obj [(t, acc)]) v

/-- The critical-decision report entry `compile_critical_decision_report`
builds for one decision, as a function of the latest-review map (a derived
characterisation of the loop body, proven equal to it below). -/
def entryFor (latest : List (String × DecisionReview)) (final_driver : Json)
    (d : Decision) : CriticalEntry :=
  match lookupKey latest d.path with
  | none =>
      ⟨d.path, json_pointer_get final_driver d.path, "MISSING",
       "Missing verifier review for decision.", ""⟩
  | some review =>
      ⟨d.path,
       (match review.proposed_value with
        | some v => v
        | none => review.driver_value),
       review.status.getD "UNSURE", review.explanation, review.evidence⟩

/-- The validation issue (if any) `compile_critical_decision_report` raises
for one decision (a derived characterisation of the loop body). -/
def issueFor (latest : List (String × DecisionReview)) (d : Decision) :
    Option Issue :=
  match lookupKey latest d.path with
  | none =>
      some ⟨"CRITICAL", "MISSING_VERIFIER_REVIEW",
            "Decision not reviewed by verifier: " ++ d.path, d.path⟩
  | some review =>
      let status := review.status.getD "UNSURE"
      if status == "DISAGREE" || status == "UNSURE" then
        some ⟨"CRITICAL", "VERIFIER_" ++ status,
              "Verifier status " ++ status ++ " for decision: " ++ d.path, d.path⟩
      else none

/-- All decision reviews of a pass list, pass order then review order
(the stream `buildLatestMap` folds over). -/
def flatReviews (passes : List VerifierPass) : List DecisionReview :=
  (passes.map (fun pa => pa.decision_reviews)).flatten

/-! ## Helper lemmas -/

theorem lookupKey_setKey_self {α : Type} (m : List (String × α)) (k : String) (v : α) :
    lookupKey (setKey m k v) k = some v := by
  induction m with
  | nil => simp [setKey, lookupKey]
  | cons kv rest ih =>
      obtain ⟨k', v'⟩ := kv
      by_cases h : k' = k
      · simp [setKey, lookupKey, h]
      · simp [setKey, lookupKey, h, ih]

theorem lookupKey_setKey_ne {α : Type} (m : List (String × α)) (k p : String) (v : α)
    (h : p ≠ k) : lookupKey (setKey m k v) p = lookupKey m p := by
  induction m with
  | nil =>
      simp only [setKey, lookupKey]
      rw [if_neg (fun hh => h hh.symm)]
  | cons kv rest ih =>
      obtain ⟨k', v'⟩ := kv
      by_cases h1 : k' = k
      · subst h1
        simp only [setKey, if_pos rfl, lookupKey]
        rw [if_neg (fun hh => h hh.symm), if_neg (fun hh => h hh.symm)]
      · simp only [setKey, if_neg h1, lookupKey]
        by_cases h2 : k' = p
        · rw [if_pos h2, if_pos h2]
        · rw [if_neg h2, if_neg h2, ih]

theorem chunk_list_flatten {α : Type} (n : ℕ) (hn : 1 ≤ n) :
    ∀ (fuel : ℕ) (xs : List α), xs.length ≤ fuel → (chunk_list xs n).flatten = xs := by
  intro fuel
  induction fuel with
  | zero =>
      intro xs h
      have : xs = [] := List.eq_nil_of_length_eq_zero (Nat.le_zero.mp h)
      subst this
      simp [chunk_list]
  | succ m ih =>
      intro xs h
      match xs with
      | [] => simp [chunk_list]
      | x :: rest =>
          rw [chunk_list]
          have hn0 : ¬ n = 0 := by omega
          simp only [hn0, dif_neg, not_false_iff, List.flatten_cons]
          rw [ih ((x :: rest).drop n) (by simp only [List.length_drop, List.length_cons] at h ⊢; omega)]
          exact List.take_append_drop n (x :: rest)

theorem chunk_list_mem_sizes {α : Type} (n : ℕ) (hn : 1 ≤ n) :
    ∀ (fuel : ℕ) (xs : List α), xs.length ≤ fuel →
      ∀ c ∈ chunk_list xs n, c ≠ [] ∧ c.length ≤ n := by
  intro fuel
  induction fuel with
  | zero =>
      intro xs h
      have : xs = [] := List.eq_nil_of_length_eq_zero (Nat.le_zero.mp h)
      subst this
      simp [chunk_list]
  | succ m ih =>
      intro xs h c hc
      match xs with
      | [] => simp [chunk_list] at hc
      | x :: rest =>
          rw [chunk_list] at hc
          have hn0 : ¬ n = 0 := by omega
          simp only [hn0, dif_neg, not_false_iff, List.mem_cons] at hc
          rcases hc with hc | hc
          · subst hc
            constructor
            · have : (List.take n (x :: rest)).length = min n (x :: rest).length := by
                simp [List.length_take]
              intro hnil
              rw [hnil] at this
              simp at this
              omega
            · simp [List.length_take]
          · exact ih ((x :: rest).drop n) (by simp only [List.length_drop, List.length_cons] at h ⊢; omega) c hc

/-! ## Claim C10 -/

/-- C10: chunking loses nothing and respects the size bound — for every list
`xs` and chunk size `n ≥ 1`, concatenating `chunk_list xs n` yields `xs`, and
every chunk is nonempty of length at most `n`; consequently the chunks
submitted by `verify_decisions` carry exactly the non-null decision list, so
no decision is dropped or duplicated by the split. -/
theorem chunk_list_complete {α : Type} (xs : List α) (n : ℕ) (hn : 1 ≤ n) :
    (chunk_list xs n).flatten = xs ∧
    (∀ c ∈ chunk_list xs n, c ≠ [] ∧ c.length ≤ n) ∧
    (∀ ds : List Decision, (verify_decisions_chunks ds).flatten = decisions_only_non_null ds) := by
  refine ⟨chunk_list_flatten n hn xs.length xs le_rfl,
          chunk_list_mem_sizes n hn xs.length xs le_rfl, ?_⟩
  intro ds
  exact chunk_list_flatten VERIFIER_CHUNK_SIZE (by decide) _ _ le_rfl

/-- C10 witness: the theorem applied at `xs = [1, 2, 3]`, `n = 2`. -/
theorem chunk_list_complete_witness :
    (chunk_list [1, 2, 3] 2).flatten = [1, 2, 3] ∧
    (∀ c ∈ chunk_list ([1, 2, 3] : List ℕ) 2, c ≠ [] ∧ c.length ≤ 2) ∧
    (∀ ds : List Decision, (verify_decisions_chunks ds).flatten = decisions_only_non_null ds) :=
  chunk_list_complete [1, 2, 3] 2 (by decide)

/-! ## Claim C7 -/

theorem dedupeGo_spec :
    ∀ (rest : List Decision) (order : List String) (m : List (String × Decision)),
      (∀ p, (lookupKey m p).isSome = true ↔ p ∈ order) →
      order.Nodup → "" ∉ order →
      dedupeGo order m rest =
        (order.filter (fun p => rest.all (fun x => !(x.path == p)))).filterMap
            (fun p => lookupKey m p)
          ++ lastOccurrenceSpec rest := by
  intro rest
  induction rest with
  | nil =>
      intro order m _ _ _
      rw [dedupeGo, lastOccurrenceSpec]
      rw [List.filter_eq_self.mpr (by intro a _; simp [List.all_nil])]
      simp
  | cons d rest ih =>
      intro order m h1 h2 h3
      by_cases hd : d.path = ""
      · have hb : (d.path == "") = true := by simp [hd]
        rw [dedupeGo, if_pos hb, ih order m h1 h2 h3]
        have hfil : order.filter (fun p => rest.all (fun x => !(x.path == p)))
            = order.filter (fun p => (d :: rest).all (fun x => !(x.path == p))) := by
          apply List.filter_congr
          intro p hp
          have hpne : p ≠ "" := fun h => h3 (h ▸ hp)
          have hbp : (d.path == p) = false := by
            rw [hd]; exact beq_eq_false_iff_ne.mpr (Ne.symm hpne)
          simp [List.all_cons, hbp]
        have hkeep : lastOccurrenceSpec (d :: rest) = lastOccurrenceSpec rest := by
          rw [lastOccurrenceSpec, if_pos]; rw [hb]; simp
        rw [hfil, hkeep]
      · have hb : (d.path == "") = false := beq_eq_false_iff_ne.mpr hd
        rw [dedupeGo, if_neg (by simp [hb])]
        show dedupeGo
            ((if (lookupKey m d.path).isSome = true
              then order.filter (fun p => !(p == d.path)) else order) ++ [d.path])
            (setKey m d.path d) rest = _
        have horder : (if (lookupKey m d.path).isSome = true
              then order.filter (fun p => !(p == d.path)) else order)
            = order.filter (fun p => !(p == d.path)) := by
          by_cases hmem : d.path ∈ order
          · exact if_pos ((h1 d.path).mpr hmem)
          · rw [if_neg (fun hs => hmem ((h1 d.path).mp hs))]
            symm
            apply List.filter_eq_self.mpr
            intro p hp
            have hne : p ≠ d.path := fun he => hmem (he ▸ hp)
            simp [beq_eq_false_iff_ne.mpr hne]
        rw [horder]
        have h1' : ∀ p, (lookupKey (setKey m d.path d) p).isSome = true ↔
            p ∈ order.filter (fun p => !(p == d.path)) ++ [d.path] := by
          intro p
          by_cases hp : p = d.path
          · subst hp; rw [lookupKey_setKey_self]; simp
          · rw [lookupKey_setKey_ne m d.path p d hp, h1 p]
            simp [List.mem_filter, beq_eq_false_iff_ne.mpr hp, hp]
        have h2' : (order.filter (fun p => !(p == d.path)) ++ [d.path]).Nodup := by
          rw [List.nodup_append]
          refine ⟨h2.filter _, List.nodup_singleton _, ?_⟩
          intro p hpA hpd
          simp only [List.mem_singleton] at hpd
          subst hpd
          have := (List.mem_filter.mp hpA).2
          simp at this
        have h3' : "" ∉ order.filter (fun p => !(p == d.path)) ++ [d.path] := by
          intro hmem
          rcases List.mem_append.mp hmem with hx | hx
          · exact h3 (List.mem_of_mem_filter hx)
          · simp only [List.mem_singleton] at hx
            exact hd hx.symm
        rw [ih _ _ h1' h2' h3']
        rw [List.filter_append, List.filter_filter]
        by_cases hrep : ∃ x ∈ rest, x.path = d.path
        · have hall : (rest.all (fun x => !(x.path == d.path))) = false := by
            obtain ⟨x, hx, he⟩ := hrep
            apply Bool.eq_false_iff.mpr
            intro hcontra
            have := List.all_eq_true.mp hcontra x hx
            simp [he] at this
          have hsing : List.filter (fun p => rest.all fun x => !(x.path == p)) [d.path] = [] := by
            simp [List.filter, hall]
          rw [hsing, List.append_nil]
          have hkeep : lastOccurrenceSpec (d :: rest) = lastOccurrenceSpec rest := by
            rw [lastOccurrenceSpec, if_pos]
            rw [hb]
            obtain ⟨x, hx, he⟩ := hrep
            simp only [Bool.false_or]
            exact List.any_eq_true.mpr ⟨x, hx, by simp [he]⟩
          rw [hkeep]
          have hfil : order.filter (fun p => (rest.all fun x => !(x.path == p)) && !(p == d.path))
              = order.filter (fun p => (d :: rest).all fun x => !(x.path == p)) := by
            apply List.filter_congr
            intro p hp
            by_cases hpd : p = d.path
            · subst hpd
              simp [List.all_cons, hall]
            · have e1 : (d.path == p) = false :=
                beq_eq_false_iff_ne.mpr (fun he => hpd he.symm)
              have e2 : (p == d.path) = false := beq_eq_false_iff_ne.mpr hpd
              simp [List.all_cons, e1, e2]
          rw [hfil]
          have hmap : (order.filter (fun p => (d :: rest).all fun x => !(x.path == p))).filterMap
                (fun p => lookupKey (setKey m d.path d) p)
              = (order.filter (fun p => (d :: rest).all fun x => !(x.path == p))).filterMap
                (fun p => lookupKey m p) := by
            apply List.filterMap_congr
            intro p hp
            have hx := (List.mem_filter.mp hp).2
            have hdp := List.all_eq_true.mp hx d (List.mem_cons_self d rest)
            have : ¬ p = d.path := by
              intro he
              subst he
              simp at hdp
            exact lookupKey_setKey_ne m d.path p d this
          rw [hmap]
        · have hallT : (rest.all (fun x => !(x.path == d.path))) = true := by
            apply List.all_eq_true.mpr
            intro x hx
            simp [beq_eq_false_iff_ne.mpr (fun he => hrep ⟨x, hx, he⟩)]
          have hsing : List.filter (fun p => rest.all fun x => !(x.path == p)) [d.path]
              = [d.path] := by
            simp [List.filter, hallT]
          rw [hsing, List.filterMap_append]
          have hone : List.filterMap (fun p => lookupKey (setKey m d.path d) p) [d.path]
              = [d] := by
            simp [List.filterMap, lookupKey_setKey_self]
          rw [hone]
          have hkeep : lastOccurrenceSpec (d :: rest) = d :: lastOccurrenceSpec rest := by
            rw [lastOccurrenceSpec, if_neg]
            rw [hb]
            simp only [Bool.false_or]
            intro hany
            obtain ⟨x, hx, he⟩ := List.any_eq_true.mp hany
            exact hrep ⟨x, hx, by rwa [beq_iff_eq] at he⟩
          rw [hkeep]
          have hfil : order.filter (fun p => (rest.all fun x => !(x.path == p)) && !(p == d.path))
              = order.filter (fun p => (d :: rest).all fun x => !(x.path == p)) := by
            apply List.filter_congr
            intro p hp
            by_cases hpd : p = d.path
            · subst hpd
              simp [List.all_cons, hallT]
            · have e1 : (d.path == p) = false :=
                beq_eq_false_iff_ne.mpr (fun he => hpd he.symm)
              have e2 : (p == d.path) = false := beq_eq_false_iff_ne.mpr hpd
              simp [List.all_cons, e1, e2]
          rw [hfil]
          have hmap : (order.filter (fun p => (d :: rest).all fun x => !(x.path == p))).filterMap
                (fun p => lookupKey (setKey m d.path d) p)
              = (order.filter (fun p => (d :: rest).all fun x => !(x.path == p))).filterMap
                (fun p => lookupKey m p) := by
            apply List.filterMap_congr
            intro p hp
            have hx := (List.mem_filter.mp hp).2
            have hdp := List.all_eq_true.mp hx d (List.mem_cons_self d rest)
            have : ¬ p = d.path := by
              intro he
              subst he
              simp at hdp
            exact lookupKey_setKey_ne m d.path p d this
          rw [hmap]
          simp [List.append_assoc]

/-- C7: `dedupe_decisions` implements exact move-to-end semantics — for every
sequence of task results it returns precisely the decisions that are the last
occurrence of their (non-empty) path, in the order of those last occurrences
(`lastOccurrenceSpec`); and concretely, decisions at paths [/a, /b, /a] with
values [1, 2, 3] yield order [/b, /a] with /a's value 3. -/
theorem dedupe_decisions_move_to_end :
    (∀ tr : List TaskResult,
      dedupe_decisions tr = lastOccurrenceSpec (tr.map (fun r => r.decisions)).flatten) ∧
    (dedupe_decisions
        [⟨[⟨"/a", Json.int 1, "", none, true⟩]⟩,
         ⟨[⟨"/b", Json.int 2, "", none, true⟩]⟩,
         ⟨[⟨"/a", Json.int 3, "", none, true⟩]⟩]).map (fun d => (d.path, d.value))
      = [("/b", Json.int 2), ("/a", Json.int 3)] := by
  constructor
  · intro tr
    rw [dedupe_decisions]
    rw [dedupeGo_spec (tr.map (fun r => r.decisions)).flatten [] []
        (by intro p; simp [lookupKey]) List.nodup_nil (by simp)]
    simp
  · rfl

/-! ## Claim C5 -/

theorem Json.isNull_iff (v : Json) : v.isNull = true ↔ v = Json.null := by
  cases v <;> simp [Json.isNull]

theorem decisions_only_non_null_value_ne_null :
    ∀ (ds : List Decision), ∀ d ∈ decisions_only_non_null ds, d.value ≠ Json.null := by
  intro ds
  induction ds with
  | nil => intro d hd; simp [decisions_only_non_null] at hd
  | cons d0 rest ih =>
      intro d hd
      rw [decisions_only_non_null] at hd
      by_cases h0 : d0.value.isNull = true
      · rw [if_pos h0] at hd
        exact ih d hd
      · rw [if_neg h0] at hd
        rcases List.mem_cons.mp hd with he | he
        · subst he
          by_cases hb : d0.page.isNone && !(d0.evidence == "")
          · rw [if_pos hb]
            cases hx : extract_page_from_evidence d0.evidence <;>
              simpa [hx, Json.isNull_iff] using h0
          · rw [if_neg hb]
            simpa [Json.isNull_iff] using h0
        · exact ih d he

theorem decisions_only_non_null_complete :
    ∀ (ds : List Decision), ∀ d ∈ ds, d.value ≠ Json.null →
      ∃ d' ∈ decisions_only_non_null ds,
        d'.path = d.path ∧ d'.value = d.value ∧ d'.evidence = d.evidence ∧
        (d'.page = d.page ∨ (d.page = none ∧ d'.page = extract_page_from_evidence d.evidence)) := by
  intro ds
  induction ds with
  | nil => intro d hd; simp at hd
  | cons d0 rest ih =>
      intro d hd hv
      rcases List.mem_cons.mp hd with he | he
      · subst he
        have h0 : ¬ d.value.isNull = true := by
          simpa [Json.isNull_iff] using hv
        rw [decisions_only_non_null, if_neg h0]
        by_cases hb : d.page.isNone && !(d.evidence == "")
        · rw [if_pos hb]
          cases hx : extract_page_from_evidence d.evidence with
          | none => exact ⟨d, List.mem_cons_self _ _, rfl, rfl, rfl, Or.inl rfl⟩
          | some n =>
              refine ⟨⟨d.path, d.value, d.evidence, some n, d.is_critical⟩,
                List.mem_cons_self _ _, rfl, rfl, rfl, Or.inr ⟨?_, by simp [hx]⟩⟩
              have := (Bool.and_eq_true _ _).mp hb
              exact Option.isNone_iff_eq_none.mp this.1
        · rw [if_neg hb]
          exact ⟨d, List.mem_cons_self _ _, rfl, rfl, rfl, Or.inl rfl⟩
      · have ⟨d', hd', hprop⟩ := ih d he hv
        rw [decisions_only_non_null]
        by_cases h0 : d0.value.isNull = true
        · rw [if_pos h0]
          exact ⟨d', hd', hprop⟩
        · rw [if_neg h0]
          exact ⟨d', List.mem_cons_of_mem _ hd', hprop⟩

/-- C5 counterexample: a decision whose value is null is not among the
decisions submitted to the verifier — with a single null-valued decision the
submitted chunk list is empty. -/
theorem null_decision_not_submitted_counterexample :
    ¬ ((⟨"/a", Json.null, "", none, true⟩ : Decision) ∈
        (verify_decisions_chunks [⟨"/a", Json.null, "", none, true⟩]).flatten) := by
  intro h
  have he : (verify_decisions_chunks [(⟨"/a", Json.null, "", none, true⟩ : Decision)]).flatten
      = [] := by
    simp [verify_decisions_chunks, decisions_only_non_null, Json.isNull, chunk_list]
  rw [he] at h
  simp at h

/-- C5 (amended): null-valued decisions are excluded from verifier
submission — every decision appearing in the submitted chunks has a non-null
value, and conversely every non-null decision of the task result is
submitted, unchanged except for the page backfilled from its evidence text
when absent. -/
theorem verify_decisions_excludes_null (ds : List Decision) :
    (∀ d ∈ (verify_decisions_chunks ds).flatten, d.value ≠ Json.null) ∧
    (∀ d ∈ ds, d.value ≠ Json.null →
      ∃ d' ∈ (verify_decisions_chunks ds).flatten,
        d'.path = d.path ∧ d'.value = d.value ∧ d'.evidence = d.evidence ∧
        (d'.page = d.page ∨ (d.page = none ∧ d'.page = extract_page_from_evidence d.evidence))) := by
  have hfl : (verify_decisions_chunks ds).flatten = decisions_only_non_null ds :=
    chunk_list_flatten VERIFIER_CHUNK_SIZE (by decide) _ _ le_rfl
  rw [hfl]
  exact ⟨decisions_only_non_null_value_ne_null ds, decisions_only_non_null_complete ds⟩

/-- C5 witness: the amended theorem applied to a concrete one-decision task
result whose page is backfilled from the evidence text. -/
theorem verify_decisions_excludes_null_witness :
    (∀ d ∈ (verify_decisions_chunks [⟨"/a", Json.int 1, "PAGE 4 top", none, true⟩]).flatten,
      d.value ≠ Json.null) ∧
    (∀ d ∈ ([⟨"/a", Json.int 1, "PAGE 4 top", none, true⟩] : List Decision),
      d.value ≠ Json.null →
      ∃ d' ∈ (verify_decisions_chunks [⟨"/a", Json.int 1, "PAGE 4 top", none, true⟩]).flatten,
        d'.path = d.path ∧ d'.value = d.value ∧ d'.evidence = d.evidence ∧
        (d'.page = d.page ∨ (d.page = none ∧ d'.page = extract_page_from_evidence d.evidence))) :=
  verify_decisions_excludes_null [⟨"/a", Json.int 1, "PAGE 4 top", none, true⟩]

/-! ## Claim C8 -/

theorem setKey_same {α : Type} :
    ∀ (l : List (String × α)) (k : String) (v : α),
      lookupKey l k = some v → setKey l k v = l := by
  intro l
  induction l with
  | nil => intro k v h; simp [lookupKey] at h
  | cons kv rest ih =>
      intro k v h
      obtain ⟨k', v'⟩ := kv
      rw [lookupKey] at h
      by_cases he : k' = k
      · rw [if_pos he] at h
        rw [setKey, if_pos he]
        simp at h
        rw [h]
      · rw [if_neg he] at h
        rw [setKey, if_neg he, ih k v h]

theorem lookup_of_mem_nodup :
    ∀ (l : List (String × Json)) (k : String) (v : Json),
      keysNodup (l.map Prod.fst) = true → (k, v) ∈ l → lookupKey l k = some v := by
  intro l
  induction l with
  | nil => intro k v _ h; simp at h
  | cons kv rest ih =>
      intro k v hn hm
      obtain ⟨k', v'⟩ := kv
      rw [List.map_cons, keysNodup, Bool.and_eq_true] at hn
      rcases List.mem_cons.mp hm with he | he
      · have h1 : k = k' := congrArg Prod.fst he
        have h2 : v = v' := congrArg Prod.snd he
        rw [lookupKey, if_pos h1.symm, h2]
      · have hne : k' ≠ k := by
          intro hk
          subst hk
          have hmem : k' ∈ rest.map Prod.fst := List.mem_map.mpr ⟨(k', v), he, rfl⟩
          have := hn.1
          rw [Bool.not_eq_true', ← Bool.not_eq_true, List.contains_iff_exists_mem_beq] at this
          exact this ⟨k', hmem, by simp⟩
        rw [lookupKey, if_neg hne, ih k v hn.2 he]

theorem keysNodup_cons_iff (k : String) (ks : List String) :
    keysNodup (k :: ks) = true ↔ ks.contains k = false ∧ keysNodup ks = true := by
  rw [keysNodup, Bool.and_eq_true, Bool.not_eq_true']

theorem mem_keys_setKey {α : Type} :
    ∀ (l : List (String × α)) (k p : String) (v : α),
      p ∈ (setKey l k v).map Prod.fst → p ∈ l.map Prod.fst ∨ p = k := by
  intro l
  induction l with
  | nil =>
      intro k p v h
      simp [setKey] at h
      exact Or.inr h
  | cons kv rest ih =>
      intro k p v h
      obtain ⟨k', v'⟩ := kv
      rw [setKey] at h
      by_cases he : k' = k
      · rw [if_pos he] at h
        simp only [List.map_cons, List.mem_cons] at h ⊢
        exact Or.inl h
      · rw [if_neg he] at h
        simp only [List.map_cons, List.mem_cons] at h ⊢
        rcases h with h | h
        · exact Or.inl (Or.inl h)
        · rcases ih k p v h with h2 | h2
          · exact Or.inl (Or.inr h2)
          · exact Or.inr h2

theorem keysNodup_setKey {α : Type} :
    ∀ (l : List (String × α)) (k : String) (v : α),
      keysNodup (l.map Prod.fst) = true → keysNodup ((setKey l k v).map Prod.fst) = true := by
  intro l
  induction l with
  | nil => intro k v _; simp [setKey, keysNodup]
  | cons kv rest ih =>
      intro k v hn
      obtain ⟨k', v'⟩ := kv
      rw [List.map_cons, keysNodup_cons_iff] at hn
      rw [setKey]
      by_cases he : k' = k
      · rw [if_pos he, List.map_cons, keysNodup_cons_iff]
        exact hn
      · rw [if_neg he, List.map_cons, keysNodup_cons_iff]
        refine ⟨?_, ih k v hn.2⟩
        rw [← Bool.not_eq_true, List.contains_iff_exists_mem_beq]
        rintro ⟨p, hp, hb⟩
        have hpk : k' = p := by simpa using hb.symm
        subst hpk
        rcases mem_keys_setKey rest k k' v hp with h | h
        · rw [← Bool.not_eq_true, List.contains_iff_exists_mem_beq] at hn
          · exact hn.1 ⟨k', h, by simp⟩
        · exact he h

theorem jsonKVListWf_setKey :
    ∀ (l : List (String × Json)) (k : String) (v : Json),
      jsonKVListWf l = true → v.wf = true → jsonKVListWf (setKey l k v) = true := by
  intro l
  induction l with
  | nil => intro k v _ hv; simp [setKey, jsonKVListWf, hv]
  | cons kv rest ih =>
      intro k v hl hv
      obtain ⟨k', v'⟩ := kv
      rw [jsonKVListWf, Bool.and_eq_true] at hl
      rw [setKey]
      by_cases he : k' = k
      · rw [if_pos he, jsonKVListWf, Bool.and_eq_true]
        exact ⟨hv, hl.2⟩
      · rw [if_neg he, jsonKVListWf, Bool.and_eq_true]
        exact ⟨hl.1, ih k v hl.2 hv⟩

theorem jsonKVListWf_lookup :
    ∀ (l : List (String × Json)) (k : String) (u : Json),
      jsonKVListWf l = true → lookupKey l k = some u → u.wf = true := by
  intro l
  induction l with
  | nil => intro k u _ h; simp [lookupKey] at h
  | cons kv rest ih =>
      intro k u hl h
      obtain ⟨k', v'⟩ := kv
      rw [jsonKVListWf, Bool.and_eq_true] at hl
      rw [lookupKey] at h
      by_cases he : k' = k
      · rw [if_pos he] at h
        simp only [Option.some.injEq] at h
        exact h ▸ hl.1
      · rw [if_neg he] at h
        exact ih k u hl.2 h

theorem jsonKVListWf_mem :
    ∀ (l : List (String × Json)) (k : String) (v : Json),
      jsonKVListWf l = true → (k, v) ∈ l → v.wf = true := by
  intro l
  induction l with
  | nil => intro k v _ h; simp at h
  | cons kv rest ih =>
      intro k v hl hm
      obtain ⟨k', v'⟩ := kv
      rw [jsonKVListWf, Bool.and_eq_true] at hl
      rcases List.mem_cons.mp hm with he | he
      · have : v = v' := congrArg Prod.snd he
        exact this ▸ hl.1
      · exact ih k v hl.2 he

theorem wf_obj_iff (l : List (String × Json)) :
    (Json.obj l).wf = true ↔ keysNodup (l.map Prod.fst) = true ∧ jsonKVListWf l = true := by
  rw [Json.wf, Bool.and_eq_true]

theorem wf_obj_tail (kv : String × Json) (rest : List (String × Json))
    (h : (Json.obj (kv :: rest)).wf = true) : (Json.obj rest).wf = true := by
  obtain ⟨k, v⟩ := kv
  rw [wf_obj_iff] at h ⊢
  rw [List.map_cons, keysNodup_cons_iff] at h
  obtain ⟨⟨_, h1⟩, h2⟩ := h
  rw [jsonKVListWf, Bool.and_eq_true] at h2
  exact ⟨h1, h2.2⟩

theorem lookup_mergeKey_ne (as' : List (String × Json)) (k p : String) (v : Json)
    (h : p ≠ k) : lookupKey (mergeKey as' k v) p = lookupKey as' p := by
  rw [mergeKey.eq_def]
  split
  · exact lookupKey_setKey_ne as' k p _ h
  · exact lookupKey_setKey_ne as' k p _ h

theorem not_mem_of_keysNodup_cons {k : String} {ks : List String}
    (h : keysNodup (k :: ks) = true) : k ∉ ks := by
  intro hm
  rw [keysNodup_cons_iff] at h
  rw [← Bool.not_eq_true, List.contains_iff_exists_mem_beq] at h
  exact absurd ⟨k, hm, by simp⟩ h.1

theorem lookup_mergeList_not_mem :
    ∀ (bs as : List (String × Json)) (k : String),
      k ∉ bs.map Prod.fst →
      lookupKey (deepMergeList as bs) k = lookupKey as k := by
  intro bs
  induction bs with
  | nil => intro as k _; rw [deepMergeList]
  | cons kv rest ih =>
      intro as k hk
      obtain ⟨k', v'⟩ := kv
      rw [List.map_cons, List.mem_cons] at hk
      push_neg at hk
      rw [deepMergeList, ih (mergeKey as k' v') k hk.2]
      exact lookup_mergeKey_ne as k' k v' hk.1

theorem mergeKey_objobj (as' : List (String × Json)) (k : String)
    (xs ys : List (String × Json)) (h : lookupKey as' k = some (Json.obj xs)) :
    mergeKey as' k (Json.obj ys) = setKey as' k (Json.obj (deepMergeList xs ys)) := by
  rw [mergeKey.eq_def, h]

theorem mergeKey_eq_setKey (as' : List (String × Json)) (k : String) (v : Json)
    (h : (∀ xs, lookupKey as' k ≠ some (Json.obj xs)) ∨ (∀ ys, v ≠ Json.obj ys)) :
    mergeKey as' k v = setKey as' k v := by
  rcases hl : lookupKey as' k with _ | u
  · rw [mergeKey.eq_def, hl]
  · cases u with
    | obj xs =>
        rcases h with h | h
        · exact absurd hl (h xs)
        · cases v with
          | obj ys => exact absurd rfl (h ys)
          | null => rw [mergeKey.eq_def, hl]
          | bool b => rw [mergeKey.eq_def, hl]
          | int n => rw [mergeKey.eq_def, hl]
          | float q => rw [mergeKey.eq_def, hl]
          | str s => rw [mergeKey.eq_def, hl]
          | arr zs => rw [mergeKey.eq_def, hl]
    | null => rw [mergeKey.eq_def, hl]
    | bool b => rw [mergeKey.eq_def, hl]
    | int n => rw [mergeKey.eq_def, hl]
    | float q => rw [mergeKey.eq_def, hl]
    | str s => rw [mergeKey.eq_def, hl]
    | arr zs => rw [mergeKey.eq_def, hl]

theorem mergeList_self_aux :
    ∀ (n : ℕ) (l ys : List (String × Json)), sizeOf l ≤ n →
      (∀ kv ∈ l, lookupKey ys kv.1 = some kv.2 ∧ kv.2.wf = true) →
      deepMergeList ys l = ys := by
  intro n
  induction n with
  | zero =>
      intro l ys hs _
      cases l with
      | nil => rw [deepMergeList]
      | cons kv l' => simp [List.cons.sizeOf_spec] at hs
  | succ m ih =>
      intro l ys hs h
      cases l with
      | nil => rw [deepMergeList]
      | cons kv l' =>
          obtain ⟨k, u⟩ := kv
          have hl : lookupKey ys k = some u := (h (k, u) (List.mem_cons_self _ _)).1
          have hw : u.wf = true := (h (k, u) (List.mem_cons_self _ _)).2
          have hsz : sizeOf l' ≤ m := by
            simp [List.cons.sizeOf_spec, Prod.mk.sizeOf_spec] at hs
            omega
          have hstep : mergeKey ys k u = ys := by
            cases u with
            | obj us =>
                rw [mergeKey_objobj ys k us us hl]
                have huswf := (wf_obj_iff us).mp hw
                have husz : sizeOf us ≤ m := by
                  simp [List.cons.sizeOf_spec, Prod.mk.sizeOf_spec, Json.obj.sizeOf_spec] at hs
                  omega
                have hself : deepMergeList us us = us :=
                  ih us us husz (by
                    intro kv hkv
                    obtain ⟨k2, v2⟩ := kv
                    exact ⟨lookup_of_mem_nodup us k2 v2 huswf.1 hkv,
                           jsonKVListWf_mem us k2 v2 huswf.2 hkv⟩)
                rw [hself]
                exact setKey_same ys k (Json.obj us) hl
            | null =>
                rw [mergeKey_eq_setKey ys k _ (Or.inr (fun ys2 hc => Json.noConfusion hc))]
                exact setKey_same ys k _ hl
            | bool b =>
                rw [mergeKey_eq_setKey ys k _ (Or.inr (fun ys2 hc => Json.noConfusion hc))]
                exact setKey_same ys k _ hl
            | int nn =>
                rw [mergeKey_eq_setKey ys k _ (Or.inr (fun ys2 hc => Json.noConfusion hc))]
                exact setKey_same ys k _ hl
            | float q =>
                rw [mergeKey_eq_setKey ys k _ (Or.inr (fun ys2 hc => Json.noConfusion hc))]
                exact setKey_same ys k _ hl
            | str sv =>
                rw [mergeKey_eq_setKey ys k _ (Or.inr (fun ys2 hc => Json.noConfusion hc))]
                exact setKey_same ys k _ hl
            | arr zs =>
                rw [mergeKey_eq_setKey ys k _ (Or.inr (fun ys2 hc => Json.noConfusion hc))]
                exact setKey_same ys k _ hl
          rw [deepMergeList, hstep]
          exact ih l' ys hsz (fun kv hkv => h kv (List.mem_cons_of_mem _ hkv))

theorem mergeList_self (ys : List (String × Json)) (h : (Json.obj ys).wf = true) :
    deepMergeList ys ys = ys := by
  have h2 := (wf_obj_iff ys).mp h
  exact mergeList_self_aux (sizeOf ys) ys ys le_rfl (by
    intro kv hkv
    obtain ⟨k2, v2⟩ := kv
    exact ⟨lookup_of_mem_nodup ys k2 v2 h2.1 hkv, jsonKVListWf_mem ys k2 v2 h2.2 hkv⟩)

theorem wf_setKey (as' : List (String × Json)) (k : String) (v : Json)
    (ha : (Json.obj as').wf = true) (hv : v.wf = true) :
    (Json.obj (setKey as' k v)).wf = true := by
  rw [wf_obj_iff] at ha ⊢
  exact ⟨keysNodup_setKey as' k v ha.1, jsonKVListWf_setKey as' k v ha.2 hv⟩

theorem wf_obj_head_value (k : String) (v : Json) (rest : List (String × Json))
    (h : (Json.obj ((k, v) :: rest)).wf = true) : v.wf = true := by
  rw [wf_obj_iff] at h
  have := h.2
  rw [jsonKVListWf, Bool.and_eq_true] at this
  exact this.1

theorem wf_mergeList_aux :
    ∀ (n : ℕ) (bs as' : List (String × Json)), sizeOf bs ≤ n →
      (Json.obj as').wf = true → (Json.obj bs).wf = true →
      (Json.obj (deepMergeList as' bs)).wf = true := by
  intro n
  induction n with
  | zero =>
      intro bs as' hs ha _
      cases bs with
      | nil => rw [deepMergeList]; exact ha
      | cons kv rest => simp [List.cons.sizeOf_spec] at hs
  | succ m ih =>
      intro bs as' hs ha hb
      cases bs with
      | nil => rw [deepMergeList]; exact ha
      | cons kv rest =>
          obtain ⟨k, v⟩ := kv
          have hv : v.wf = true := wf_obj_head_value k v rest hb
          have hrest : (Json.obj rest).wf = true := wf_obj_tail (k, v) rest hb
          have hszrest : sizeOf rest ≤ m := by
            simp [List.cons.sizeOf_spec, Prod.mk.sizeOf_spec] at hs
            omega
          have hmk : (Json.obj (mergeKey as' k v)).wf = true := by
            cases v with
            | obj ys =>
                rcases hlk : lookupKey as' k with _ | u
                · rw [mergeKey_eq_setKey as' k _
                    (Or.inl (fun xs hc => by rw [hlk] at hc; exact Option.noConfusion hc))]
                  exact wf_setKey as' k _ ha hv
                · have hszys : sizeOf ys ≤ m := by
                    simp [List.cons.sizeOf_spec, Prod.mk.sizeOf_spec, Json.obj.sizeOf_spec] at hs
                    omega
                  cases u with
                  | obj xs =>
                      rw [mergeKey_objobj as' k xs ys hlk]
                      have hxs : (Json.obj xs).wf = true :=
                        jsonKVListWf_lookup as' k _ ((wf_obj_iff as').mp ha).2 hlk
                      exact wf_setKey as' k _ ha (ih ys xs hszys hxs hv)
                  | null =>
                      rw [mergeKey_eq_setKey as' k _ (Or.inl (fun xs hc => by
                        rw [hlk] at hc; injection hc with h2; exact Json.noConfusion h2))]
                      exact wf_setKey as' k _ ha hv
                  | bool b =>
                      rw [mergeKey_eq_setKey as' k _ (Or.inl (fun xs hc => by
                        rw [hlk] at hc; injection hc with h2; exact Json.noConfusion h2))]
                      exact wf_setKey as' k _ ha hv
                  | int nn =>
                      rw [mergeKey_eq_setKey as' k _ (Or.inl (fun xs hc => by
                        rw [hlk] at hc; injection hc with h2; exact Json.noConfusion h2))]
                      exact wf_setKey as' k _ ha hv
                  | float q =>
                      rw [mergeKey_eq_setKey as' k _ (Or.inl (fun xs hc => by
                        rw [hlk] at hc; injection hc with h2; exact Json.noConfusion h2))]
                      exact wf_setKey as' k _ ha hv
                  | str sv =>
                      rw [mergeKey_eq_setKey as' k _ (Or.inl (fun xs hc => by
                        rw [hlk] at hc; injection hc with h2; exact Json.noConfusion h2))]
                      exact wf_setKey as' k _ ha hv
                  | arr zs =>
                      rw [mergeKey_eq_setKey as' k _ (Or.inl (fun xs hc => by
                        rw [hlk] at hc; injection hc with h2; exact Json.noConfusion h2))]
                      exact wf_setKey as' k _ ha hv
            | null =>
                rw [mergeKey_eq_setKey as' k _ (Or.inr (fun ys hc => Json.noConfusion hc))]
                exact wf_setKey as' k _ ha hv
            | bool b =>
                rw [mergeKey_eq_setKey as' k _ (Or.inr (fun ys hc => Json.noConfusion hc))]
                exact wf_setKey as' k _ ha hv
            | int nn =>
                rw [mergeKey_eq_setKey as' k _ (Or.inr (fun ys hc => Json.noConfusion hc))]
                exact wf_setKey as' k _ ha hv
            | float q =>
                rw [mergeKey_eq_setKey as' k _ (Or.inr (fun ys hc => Json.noConfusion hc))]
                exact wf_setKey as' k _ ha hv
            | str sv =>
                rw [mergeKey_eq_setKey as' k _ (Or.inr (fun ys hc => Json.noConfusion hc))]
                exact wf_setKey as' k _ ha hv
            | arr zs =>
                rw [mergeKey_eq_setKey as' k _ (Or.inr (fun ys hc => Json.noConfusion hc))]
                exact wf_setKey as' k _ ha hv
          rw [deepMergeList]
          exact ih rest (mergeKey as' k v) hszrest hmk hrest

theorem wf_mergeKey (as' : List (String × Json)) (k : String) (v : Json)
    (ha : (Json.obj as').wf = true) (hv : v.wf = true) :
    (Json.obj (mergeKey as' k v)).wf = true := by
  by_cases hvo : ∃ ys, v = Json.obj ys
  · obtain ⟨ys, rfl⟩ := hvo
    by_cases hlo : ∃ xs, lookupKey as' k = some (Json.obj xs)
    · obtain ⟨xs, hlk⟩ := hlo
      rw [mergeKey_objobj as' k xs ys hlk]
      have hxs : (Json.obj xs).wf = true :=
        jsonKVListWf_lookup as' k _ ((wf_obj_iff as').mp ha).2 hlk
      exact wf_setKey as' k _ ha (wf_mergeList_aux (sizeOf ys) ys xs le_rfl hxs hv)
    · rw [mergeKey_eq_setKey as' k _ (Or.inl (fun xs hc => hlo ⟨xs, hc⟩))]
      exact wf_setKey as' k _ ha hv
  · rw [mergeKey_eq_setKey as' k _ (Or.inr (fun ys hc => hvo ⟨ys, hc⟩))]
    exact wf_setKey as' k _ ha hv

theorem mergeList_idem_aux :
    ∀ (n : ℕ) (bs as' : List (String × Json)), sizeOf bs ≤ n →
      (Json.obj as').wf = true → (Json.obj bs).wf = true →
      deepMergeList (deepMergeList as' bs) bs = deepMergeList as' bs := by
  intro n
  induction n with
  | zero =>
      intro bs as' hs _ _
      cases bs with
      | nil => simp only [deepMergeList]
      | cons kv rest => simp [List.cons.sizeOf_spec] at hs
  | succ m ih =>
      intro bs as' hs ha hb
      cases bs with
      | nil => simp only [deepMergeList]
      | cons kv rest =>
          obtain ⟨k, v⟩ := kv
          have hv : v.wf = true := wf_obj_head_value k v rest hb
          have hrest : (Json.obj rest).wf = true := wf_obj_tail (k, v) rest hb
          have hszrest : sizeOf rest ≤ m := by
            simp [List.cons.sizeOf_spec, Prod.mk.sizeOf_spec] at hs
            omega
          have hkrest : k ∉ rest.map Prod.fst := by
            have := ((wf_obj_iff _).mp hb).1
            rw [List.map_cons] at this
            exact not_mem_of_keysNodup_cons this
          have hMk : lookupKey (deepMergeList (mergeKey as' k v) rest) k
              = lookupKey (mergeKey as' k v) k :=
            lookup_mergeList_not_mem rest (mergeKey as' k v) k hkrest
          have hstep : mergeKey (deepMergeList (mergeKey as' k v) rest) k v
              = deepMergeList (mergeKey as' k v) rest := by
            by_cases hvo : ∃ ys, v = Json.obj ys
            · obtain ⟨ys, rfl⟩ := hvo
              have hszys : sizeOf ys ≤ m := by
                simp [List.cons.sizeOf_spec, Prod.mk.sizeOf_spec, Json.obj.sizeOf_spec] at hs
                omega
              by_cases hlo : ∃ xs, lookupKey as' k = some (Json.obj xs)
              · obtain ⟨xs, hlk⟩ := hlo
                have hAk : lookupKey (mergeKey as' k (Json.obj ys)) k
                    = some (Json.obj (deepMergeList xs ys)) := by
                  rw [mergeKey_objobj as' k xs ys hlk]
                  exact lookupKey_setKey_self as' k _
                rw [mergeKey_objobj _ k (deepMergeList xs ys) ys (by rw [hMk]; exact hAk)]
                have hxs : (Json.obj xs).wf = true :=
                  jsonKVListWf_lookup as' k _ ((wf_obj_iff as').mp ha).2 hlk
                rw [ih ys xs hszys hxs hv]
                exact setKey_same _ k _ (by rw [hMk]; exact hAk)
              · have hAk : lookupKey (mergeKey as' k (Json.obj ys)) k
                    = some (Json.obj ys) := by
                  rw [mergeKey_eq_setKey as' k _ (Or.inl (fun xs hc => hlo ⟨xs, hc⟩))]
                  exact lookupKey_setKey_self as' k _
                rw [mergeKey_objobj _ k ys ys (by rw [hMk]; exact hAk)]
                rw [mergeList_self ys hv]
                exact setKey_same _ k _ (by rw [hMk]; exact hAk)
            · have hAk : lookupKey (mergeKey as' k v) k = some v := by
                rw [mergeKey_eq_setKey as' k _ (Or.inr (fun ys hc => hvo ⟨ys, hc⟩))]
                exact lookupKey_setKey_self as' k _
              rw [mergeKey_eq_setKey _ k _ (Or.inr (fun ys hc => hvo ⟨ys, hc⟩))]
              exact setKey_same _ k _ (by rw [hMk]; exact hAk)
          rw [deepMergeList, deepMergeList, hstep]
          exact ih rest (mergeKey as' k v) hszrest (wf_mergeKey as' k v ha hv) hrest

/-- C8 counterexample: `merge(x, {}) = x` fails for a non-map `x` — the
empty patch wins wholesale, so `deep_merge 5 {} = {} ≠ 5`. -/
theorem deep_merge_empty_patch_counterexample :
    deep_merge (Json.int 5) (Json.obj []) ≠ Json.int 5 := by
  intro h
  exact Json.noConfusion ((rfl : deep_merge (Json.int 5) (Json.obj []) = Json.obj []) ▸ h)

/-- C8 (amended): `deep_merge x {} = x` holds for every map `x`, while for a
non-map `x` the empty patch wins wholesale (`deep_merge x {} = {}`); and
merging the same patch twice equals merging it once for all well-formed
(unique-keyed, as Python dicts are) values. -/
theorem deep_merge_identity_idem :
    (∀ l : List (String × Json), deep_merge (Json.obj l) (Json.obj []) = Json.obj l) ∧
    (∀ x : Json, (∀ l, x ≠ Json.obj l) → deep_merge x (Json.obj []) = Json.obj []) ∧
    (∀ b p : Json, b.wf = true → p.wf = true →
      deep_merge (deep_merge b p) p = deep_merge b p) := by
  refine ⟨?_, ?_, ?_⟩
  · intro l
    show Json.obj (deepMergeList l []) = Json.obj l
    rw [deepMergeList]
  · intro x hx
    cases x with
    | obj l => exact absurd rfl (hx l)
    | null => rfl
    | bool b => rfl
    | int n => rfl
    | float q => rfl
    | str s => rfl
    | arr xs => rfl
  · intro b p hb hp
    cases p with
    | obj ps =>
        cases b with
        | obj bs =>
            show Json.obj (deepMergeList (deepMergeList bs ps) ps)
              = Json.obj (deepMergeList bs ps)
            rw [mergeList_idem_aux (sizeOf ps) ps bs le_rfl hb hp]
        | null =>
            show Json.obj (deepMergeList ps ps) = Json.obj ps
            rw [mergeList_self ps hp]
        | bool bb =>
            show Json.obj (deepMergeList ps ps) = Json.obj ps
            rw [mergeList_self ps hp]
        | int n =>
            show Json.obj (deepMergeList ps ps) = Json.obj ps
            rw [mergeList_self ps hp]
        | float q =>
            show Json.obj (deepMergeList ps ps) = Json.obj ps
            rw [mergeList_self ps hp]
        | str s =>
            show Json.obj (deepMergeList ps ps) = Json.obj ps
            rw [mergeList_self ps hp]
        | arr xs =>
            show Json.obj (deepMergeList ps ps) = Json.obj ps
            rw [mergeList_self ps hp]
    | null => cases b <;> rfl
    | bool pb => cases b <;> rfl
    | int pn => cases b <;> rfl
    | float pq => cases b <;> rfl
    | str st => cases b <;> rfl
    | arr pxs => cases b <;> rfl

/-- C8 witness: the amended theorem applied at concrete values — identity on
a one-key map, wholesale replacement of a non-map, and idempotence of a
concrete patch. -/
theorem deep_merge_identity_idem_witness :
    deep_merge (Json.obj [("a", Json.int 1)]) (Json.obj []) = Json.obj [("a", Json.int 1)] ∧
    deep_merge (Json.int 5) (Json.obj []) = Json.obj [] ∧
    deep_merge (deep_merge (Json.obj [("a", Json.int 1)]) (Json.obj [("b", Json.int 2)]))
        (Json.obj [("b", Json.int 2)])
      = deep_merge (Json.obj [("a", Json.int 1)]) (Json.obj [("b", Json.int 2)]) :=
  ⟨deep_merge_identity_idem.1 [("a", Json.int 1)],
   deep_merge_identity_idem.2.1 (Json.int 5) (fun _ hc => Json.noConfusion hc),
   deep_merge_identity_idem.2.2 _ _ (by rfl) (by rfl)⟩

/-! ## Claim C9 -/

theorem isError_map {ε α β : Type} (f : α → β) (e : Except ε α) :
    isError (e.map f) = isError e := by
  cases e <;> rfl

theorem setTokens_vivify :
    ∀ (ts : List String) (t : String) (v : Json),
      setTokens (Json.obj []) (t :: ts) v = Except.ok (vivify (t :: ts) v) := by
  intro ts
  induction ts with
  | nil => intro t v; rfl
  | cons t' ts' ih =>
      intro t v
      rw [setTokens]
      rw [if_neg (by simp)]
      show (setTokens (Json.obj []) (t' :: ts') v).map
          (fun r => Json.obj (setKey [] t r)) = _
      rw [ih t' v]
      rfl

theorem setTokens_nil (cur v : Json) : setTokens cur [] v = Except.ok cur := by
  cases cur <;> rfl

theorem errWalk_nil (cur : Json) : errWalk cur [] = false := by
  cases cur <;> rfl

theorem setTokens_isError :
    ∀ (ts : List String) (cur v : Json),
      isError (setTokens cur ts v) = errWalk cur ts := by
  intro ts
  induction ts with
  | nil => intro cur v; rw [setTokens_nil, errWalk_nil]; rfl
  | cons t rest ih =>
      intro cur v
      cases cur with
      | arr xs =>
          rw [setTokens, errWalk]
          cases hpi : parseIndex t with
          | none => simp [isError]
          | some i =>
              simp only
              by_cases h : i < xs.length
              · rw [dif_pos h, dif_pos h]
                cases rest with
                | nil => rw [errWalk_nil]; rfl
                | cons r rs =>
                    rw [if_neg (by simp)]
                    rw [isError_map, ih]
              · rw [dif_neg h, dif_neg h]
                rfl
      | obj l =>
          cases rest with
          | nil =>
              have h1 : isError (setTokens (Json.obj l) [t] v) = false := by
                rw [setTokens, if_pos (by simp)]
                rfl
              rw [h1, errWalk]
              cases hlk : lookupKey l t with
              | none => rfl
              | some c => cases c <;> simp [errWalk_nil]
          | cons r rs =>
              rw [setTokens, if_neg (by simp), errWalk]
              rw [isError_map, ih]
              cases hlk : lookupKey l t with
              | none =>
                  simp only
                  rw [errWalk]
                  simp [lookupKey]
              | some c =>
                  cases c with
                  | arr ys => simp only
                  | obj m => simp only
                  | null => simp only; rw [errWalk]; simp [lookupKey]
                  | bool b => simp only; rw [errWalk]; simp [lookupKey]
                  | int n => simp only; rw [errWalk]; simp [lookupKey]
                  | float q => simp only; rw [errWalk]; simp [lookupKey]
                  | str s => simp only; rw [errWalk]; simp [lookupKey]
      | null => rfl
      | bool b => rfl
      | int n => rfl
      | float q => rfl
      | str s => rfl

theorem setTokens_autoviv (l : List (String × Json)) (t : String) (rest : List String)
    (v : Json) (hrest : rest ≠ [])
    (hc : ∀ c, lookupKey l t = some c → (∀ ys, c ≠ Json.arr ys) ∧ (∀ m, c ≠ Json.obj m)) :
    setTokens (Json.obj l) (t :: rest) v
      = Except.ok (Json.obj (setKey l t (vivify rest v))) := by
  obtain ⟨r, rs, rfl⟩ : ∃ r rs, rest = r :: rs := by
    cases rest with
    | nil => exact absurd rfl hrest
    | cons r rs => exact ⟨r, rs, rfl⟩
  rw [setTokens, if_neg (by simp)]
  cases hlk : lookupKey l t with
  | none =>
      simp only
      rw [setTokens_vivify]
      rfl
  | some c =>
      cases c with
      | arr ys => exact absurd rfl ((hc _ hlk).1 ys)
      | obj m => exact absurd rfl ((hc _ hlk).2 m)
      | null => simp only; rw [setTokens_vivify]; rfl
      | bool b => simp only; rw [setTokens_vivify]; rfl
      | int n => simp only; rw [setTokens_vivify]; rfl
      | float q => simp only; rw [setTokens_vivify]; rfl
      | str s => simp only; rw [setTokens_vivify]; rfl

/-- C9: `json_pointer_set` raises a typed error exactly when the pointer is
empty/root, or the walk hits a non-numeric or out-of-range sequence index or
a non-container (`errWalk`, the spec's error condition); in all other cases
it succeeds.  A missing or wrong-typed intermediate map key is traversed as a
fresh empty map, and the structure built below a fresh empty map is `vivify`
— nested single-key maps only, never a sequence. -/
theorem json_pointer_set_spec (obj : Json) (ptr : String) (v : Json) :
    ((ptr = "" ∨ ptr = "/") → isError (json_pointer_set obj ptr v) = true) ∧
    (¬(ptr = "" ∨ ptr = "/") →
      isError (json_pointer_set obj ptr v) = errWalk obj (parsePointer ptr)) ∧
    (∀ (l : List (String × Json)) (t : String) (rest : List String),
      rest ≠ [] →
      (∀ c, lookupKey l t = some c → (∀ ys, c ≠ Json.arr ys) ∧ (∀ m, c ≠ Json.obj m)) →
      setTokens (Json.obj l) (t :: rest) v
        = Except.ok (Json.obj (setKey l t (vivify rest v)))) ∧
    (∀ (ts : List String) (t : String),
      setTokens (Json.obj []) (t :: ts) v = Except.ok (vivify (t :: ts) v)) := by
  refine ⟨?_, ?_, ?_, ?_⟩
  · intro h
    rw [json_pointer_set, if_pos h]
    rfl
  · intro h
    rw [json_pointer_set, if_neg h]
    exact setTokens_isError _ obj v
  · intro l t rest h1 h2
    exact setTokens_autoviv l t rest v h1 h2
  · intro ts t
    exact setTokens_vivify ts t v

/-- C9 witness: the theorem applied at concrete inputs — the empty pointer is
rejected; `/items/3` on a two-element list errs exactly as `errWalk` says;
`/a/b` on a map whose `a` holds a scalar auto-vivifies a fresh map. -/
theorem json_pointer_set_spec_witness :
    isError (json_pointer_set (Json.obj []) "" (Json.int 1)) = true ∧
    isError (json_pointer_set (Json.obj [("items", Json.arr [Json.str "a", Json.str "b"])])
        "/items/3" (Json.int 1))
      = errWalk (Json.obj [("items", Json.arr [Json.str "a", Json.str "b"])])
          (parsePointer "/items/3") ∧
    setTokens (Json.obj [("a", Json.int 5)]) ["a", "b"] (Json.int 1)
      = Except.ok (Json.obj (setKey [("a", Json.int 5)] "a" (vivify ["b"] (Json.int 1)))) := by
  refine ⟨(json_pointer_set_spec (Json.obj []) "" (Json.int 1)).1 (Or.inl rfl), ?_, ?_⟩
  · exact (json_pointer_set_spec
      (Json.obj [("items", Json.arr [Json.str "a", Json.str "b"])]) "/items/3"
      (Json.int 1)).2.1 (by simp)
  · refine (json_pointer_set_spec (Json.obj [("a", Json.int 5)]) "/a/b"
      (Json.int 1)).2.2.1 [("a", Json.int 5)] "a" ["b"] (by simp) ?_
    intro c hc
    have : c = Json.int 5 := by
      have he : some (Json.int 5) = some c := by
        rw [← hc]
        rfl
      injection he with h2
      exact h2.symm
    subst this
    exact ⟨fun ys he => Json.noConfusion he, fun m he => Json.noConfusion he⟩

/-! ## Claim C6 -/

theorem isNull_false_of_ne (b : Json) (h : b ≠ Json.null) : b.isNull = false := by
  cases b with
  | null => exact absurd rfl h
  | bool x => rfl
  | int x => rfl
  | float x => rfl
  | str x => rfl
  | arr x => rfl
  | obj x => rfl

theorem coerce_eq_pyNum (a : Json) (x : ℚ) (h : pyNum? a = some x) :
    coerce_float a = some x := by
  cases a <;> simp [pyNum?] at h <;> simp [coerce_float, h]

theorem pyNum_eq_coerce_nonstr (a : Json) (fa : ℚ) (hs : ∀ s, a ≠ Json.str s)
    (h : coerce_float a = some fa) : pyNum? a = some fa := by
  cases a with
  | str s => exact absurd rfl (hs s)
  | null => simp [coerce_float] at h
  | arr xs => simp [coerce_float] at h
  | obj l => simp [coerce_float] at h
  | bool x => simpa [coerce_float, pyNum?] using h
  | int n => simpa [coerce_float, pyNum?] using h
  | float q => simpa [coerce_float, pyNum?] using h

theorem pyEq_of_num (a b : Json) (x y : ℚ) (hx : pyNum? a = some x)
    (hy : pyNum? b = some y) : pyEq a b = (x == y) := by
  cases a <;> simp [pyNum?] at hx <;> cases b <;> simp [pyNum?] at hy <;>
    rw [← hx, ← hy] <;> rfl

theorem pyEq_str_num (s : String) (b : Json) (y : ℚ) (hy : pyNum? b = some y) :
    pyEq (Json.str s) b = false := by
  cases b <;> simp [pyNum?] at hy <;> rfl

theorem pyEq_num_str (a : Json) (t : String) (x : ℚ) (hx : pyNum? a = some x) :
    pyEq a (Json.str t) = false := by
  cases a <;> simp [pyNum?] at hx <;> rfl

theorem values_match_reduce_num (a b : Json) (x y t1 t2 : ℚ)
    (hx : pyNum? a = some x) (hy : pyNum? b = some y) :
    values_match a b t1 t2 =
      (if |x - y| ≤ t1 then true
       else if 0 < |y| ∧ |x - y| / |y| ≤ t2 then true
       else pyEq a b) := by
  cases a <;> simp [pyNum?] at hx <;> cases b <;> simp [pyNum?] at hy <;>
    rw [← hx, ← hy] <;> rfl

theorem values_match_reduce_strnum (s : String) (b : Json) (fa y t1 t2 : ℚ)
    (hca : coerce_float (Json.str s) = some fa) (hy : pyNum? b = some y) :
    values_match (Json.str s) b t1 t2 =
      (if |fa - y| ≤ t1 then true
       else if 0 < |y| ∧ |fa - y| / |y| ≤ t2 then true
       else pyEq (Json.str s) b) := by
  cases b <;> simp [pyNum?] at hy <;> rw [← hy] <;> unfold values_match <;>
    rw [show coerce_float (Json.str s) = some fa from hca] <;> rfl

theorem values_match_reduce_numstr (a : Json) (t : String) (x fb t1 t2 : ℚ)
    (hx : pyNum? a = some x) (hcb : coerce_float (Json.str t) = some fb) :
    values_match a (Json.str t) t1 t2 =
      (if |x - fb| ≤ t1 then true
       else if 0 < |fb| ∧ |x - fb| / |fb| ≤ t2 then true
       else pyEq a (Json.str t)) := by
  cases a <;> simp [pyNum?] at hx <;> rw [← hx] <;> unfold values_match <;>
    rw [show coerce_float (Json.str t) = some fb from hcb] <;> rfl

theorem tol_chain_iff (x y t1 t2 : ℚ) (fb : Bool) (hfb : fb = true → |x - y| ≤ t1) :
    ((if |x - y| ≤ t1 then true
      else if 0 < |y| ∧ |x - y| / |y| ≤ t2 then true else fb) = true
     ↔ (|x - y| ≤ t1 ∨ (0 < |y| ∧ |x - y| / |y| ≤ t2))) := by
  by_cases h1 : |x - y| ≤ t1
  · simp [h1]
  · by_cases h2 : 0 < |y| ∧ |x - y| / |y| ≤ t2
    · simp [h1, h2]
    · simp only [if_neg h1, if_neg h2]
      constructor
      · intro hb
        exact absurd (hfb hb) h1
      · rintro (h | h)
        · exact absurd h h1
        · exact absurd h h2

theorem values_match_fallback (a b : Json) (t1 t2 : ℚ)
    (hnull : ¬(a = Json.null ∧ b = Json.null))
    (hstr : ∀ s t, ¬(a = Json.str s ∧ b = Json.str t))
    (hnone : coerce_float a = none ∨ coerce_float b = none) :
    values_match a b t1 t2 = pyEq a b := by
  cases a with
  | null =>
      unfold values_match
      rw [isNull_false_of_ne b (fun h => hnull ⟨rfl, h⟩)]
      rfl
  | arr xs => rfl
  | obj l => rfl
  | bool ab =>
      rcases hnone with h | h
      · simp [coerce_float] at h
      · unfold values_match
        rw [h]
        rfl
  | int an =>
      rcases hnone with h | h
      · simp [coerce_float] at h
      · unfold values_match
        rw [h]
        rfl
  | float aq =>
      rcases hnone with h | h
      · simp [coerce_float] at h
      · unfold values_match
        rw [h]
        rfl
  | str s =>
      cases b with
      | str t => exact absurd ⟨rfl, rfl⟩ (hstr s t)
      | null =>
          rcases hpa : coerce_float (Json.str s) with _ | fa <;>
            unfold values_match <;> rw [hpa] <;> rfl
      | arr ys =>
          rcases hpa : coerce_float (Json.str s) with _ | fa <;>
            unfold values_match <;> rw [hpa] <;> rfl
      | obj m =>
          rcases hpa : coerce_float (Json.str s) with _ | fa <;>
            unfold values_match <;> rw [hpa] <;> rfl
      | bool bb =>
          rcases hnone with h | h
          · unfold values_match
            rw [h]
            rfl
          · simp [coerce_float] at h
      | int bn =>
          rcases hnone with h | h
          · unfold values_match
            rw [h]
            rfl
          · simp [coerce_float] at h
      | float bq =>
          rcases hnone with h | h
          · unfold values_match
            rw [h]
            rfl
          · simp [coerce_float] at h

/-- C6: `values_match` obeys the comparison contract for all inputs, for any
nonnegative absolute tolerance (the defaults are 0.01 = 1/100): both-null
matches; two strings compare stripped; otherwise when both sides coerce to
numbers the result is true iff the absolute difference is within `abs_tol`
or, for nonzero `b`, the relative difference against `b` is within
`rel_tol`; otherwise raw (Python) equality decides.  In particular
`values_match 200.0 202.0` is true and `values_match 200.0 204.0` is false
at the default tolerances. -/
theorem values_match_contract (abs_tol rel_tol : ℚ) (ha : 0 ≤ abs_tol) :
    (values_match Json.null Json.null abs_tol rel_tol = true) ∧
    (∀ s t, values_match (Json.str s) (Json.str t) abs_tol rel_tol
      = (pyStrip s == pyStrip t)) ∧
    (∀ a b fa fb, ¬(a = Json.null ∧ b = Json.null) →
      (∀ s t, ¬(a = Json.str s ∧ b = Json.str t)) →
      coerce_float a = some fa → coerce_float b = some fb →
      (values_match a b abs_tol rel_tol = true ↔
        |fa - fb| ≤ abs_tol ∨ (0 < |fb| ∧ |fa - fb| / |fb| ≤ rel_tol))) ∧
    (∀ a b, ¬(a = Json.null ∧ b = Json.null) →
      (∀ s t, ¬(a = Json.str s ∧ b = Json.str t)) →
      (coerce_float a = none ∨ coerce_float b = none) →
      values_match a b abs_tol rel_tol = pyEq a b) ∧
    (values_match (Json.float 200) (Json.float 202) NUMERIC_TOL_ABS NUMERIC_TOL_REL = true ∧
     values_match (Json.float 200) (Json.float 204) NUMERIC_TOL_ABS NUMERIC_TOL_REL = false) := by
  refine ⟨rfl, fun s t => rfl, ?_, fun a b => values_match_fallback a b abs_tol rel_tol, ?_⟩
  · intro a b fa fb hnull hstr hca hcb
    by_cases has : ∃ s, a = Json.str s
    · obtain ⟨s, rfl⟩ := has
      by_cases hbs : ∃ t, b = Json.str t
      · obtain ⟨t, rfl⟩ := hbs
        exact absurd ⟨rfl, rfl⟩ (hstr s t)
      · have hy : pyNum? b = some fb :=
          pyNum_eq_coerce_nonstr b fb (fun t ht => hbs ⟨t, ht⟩) hcb
        rw [values_match_reduce_strnum s b fa fb _ _ hca hy]
        exact tol_chain_iff fa fb abs_tol rel_tol _
          (fun hb => absurd (pyEq_str_num s b fb hy ▸ hb) (by simp))
    · have hx : pyNum? a = some fa :=
        pyNum_eq_coerce_nonstr a fa (fun t ht => has ⟨t, ht⟩) hca
      by_cases hbs : ∃ t, b = Json.str t
      · obtain ⟨t, rfl⟩ := hbs
        rw [values_match_reduce_numstr a t fa fb _ _ hx hcb]
        exact tol_chain_iff fa fb abs_tol rel_tol _
          (fun hb => absurd (pyEq_num_str a t fa hx ▸ hb) (by simp))
      · have hy : pyNum? b = some fb :=
          pyNum_eq_coerce_nonstr b fb (fun t ht => hbs ⟨t, ht⟩) hcb
        rw [values_match_reduce_num a b fa fb _ _ hx hy]
        refine tol_chain_iff fa fb abs_tol rel_tol _ (fun hb => ?_)
        have : fa = fb := by
          have := (pyEq_of_num a b fa fb hx hy) ▸ hb
          simpa using this
        rw [this]
        simpa using ha
  · constructor
    · rw [values_match_reduce_num (Json.float 200) (Json.float 202) 200 202 _ _ rfl rfl]
      norm_num [NUMERIC_TOL_ABS, NUMERIC_TOL_REL]
    · rw [values_match_reduce_num (Json.float 200) (Json.float 204) 200 204 _ _ rfl rfl]
      have h1 : ¬ (|(200 : ℚ) - 204| ≤ NUMERIC_TOL_ABS) := by
        norm_num [NUMERIC_TOL_ABS]
      have h2 : ¬ (0 < |(204 : ℚ)| ∧ |(200 : ℚ) - 204| / |(204 : ℚ)| ≤ NUMERIC_TOL_REL) := by
        norm_num [NUMERIC_TOL_REL]
      rw [if_neg h1, if_neg h2]
      rfl

/-- C6 witness: the contract applied at the default tolerances, yielding the
two concrete boundary evaluations. -/
theorem values_match_contract_witness :
    0 ≤ NUMERIC_TOL_ABS ∧
    (values_match (Json.float 200) (Json.float 202) NUMERIC_TOL_ABS NUMERIC_TOL_REL = true ∧
     values_match (Json.float 200) (Json.float 204) NUMERIC_TOL_ABS NUMERIC_TOL_REL = false) :=
  ⟨by norm_num [NUMERIC_TOL_ABS],
   (values_match_contract NUMERIC_TOL_ABS NUMERIC_TOL_REL
      (by norm_num [NUMERIC_TOL_ABS])).2.2.2.2⟩

/-! ## Report compilation lemmas (claims C1-C4) -/

theorem compileEntries_eq (latest : List (String × DecisionReview)) (driver : Json) :
    ∀ ds : List Decision,
      compileEntries latest driver ds
        = ((ds.filter (fun d => !(d.path == ""))).map (entryFor latest driver),
           (ds.filter (fun d => !(d.path == ""))).filterMap (issueFor latest)) := by
  intro ds
  induction ds with
  | nil => rfl
  | cons d rest ih =>
      simp only [compileEntries, ih]
      by_cases hd : (d.path == "") = true
      · rw [if_pos hd, List.filter_cons]
        simp [hd]
      · rw [if_neg hd, List.filter_cons]
        simp only [hd, Bool.not_false, if_pos]
        cases hlk : lookupKey latest d.path with
        | none => simp [entryFor, issueFor, hlk]
        | some review =>
            simp only
            by_cases hst : (review.status.getD "UNSURE" == "DISAGREE"
                || review.status.getD "UNSURE" == "UNSURE") = true
            · rw [if_pos hst]
              simp [entryFor, issueFor, hlk, hst]
            · rw [if_neg hst]
              simp [entryFor, issueFor, hlk, hst]

theorem lookup_foldReviews :
    ∀ (rs : List DecisionReview) (m : List (String × DecisionReview)) (p : String), p ≠ "" →
      lookupKey (rs.foldl
          (fun m' dr => if dr.path == "" then m' else setKey m' dr.path dr) m) p
        = (match rs.reverse.find? (fun r => r.path == p) with
           | some r => some r
           | none => lookupKey m p) := by
  intro rs
  induction rs with
  | nil => intro m p _; simp [List.find?]
  | cons dr rest ih =>
      intro m p hp
      rw [List.foldl_cons, ih _ p hp, List.reverse_cons, List.find?_append]
      cases hfind : rest.reverse.find? (fun r => r.path == p) with
      | some r => simp
      | none =>
          simp only [Option.none_or]
          cases hf : (dr.path == p) with
          | true =>
              have hdp : dr.path = p := by simpa using hf
              have hne : (dr.path == "") = false :=
                beq_eq_false_iff_ne.mpr (hdp ▸ hp)
              rw [if_neg (by simp [hne])]
              rw [List.find?_cons, hf]
              rw [hdp, lookupKey_setKey_self]
          | false =>
              rw [List.find?_cons, hf]
              simp only [List.find?_nil]
              by_cases hde : (dr.path == "") = true
              · rw [if_pos hde]
              · rw [if_neg hde]
                exact lookupKey_setKey_ne m dr.path p dr
                  (fun he => by simp [he] at hf)

theorem buildLatestMap_lookup (passes : List VerifierPass) (p : String) (hp : p ≠ "") :
    lookupKey (buildLatestMap passes) p
      = (flatReviews passes).reverse.find? (fun r => r.path == p) := by
  have h1 : buildLatestMap passes
      = (flatReviews passes).foldl
          (fun m' dr => if dr.path == "" then m' else setKey m' dr.path dr) [] := by
    rw [buildLatestMap, flatReviews, List.foldl_flatten, List.foldl_map]
  rw [h1, lookup_foldReviews _ [] p hp]
  cases (flatReviews passes).reverse.find? (fun r => r.path == p) <;> rfl

theorem buildLatestMap_none_iff (passes : List VerifierPass) (p : String) (hp : p ≠ "") :
    lookupKey (buildLatestMap passes) p = none ↔
      ¬ ∃ pa ∈ passes, ∃ r ∈ pa.decision_reviews, r.path = p := by
  rw [buildLatestMap_lookup passes p hp, List.find?_eq_none]
  constructor
  · rintro h ⟨pa, hpa, r, hr, hrp⟩
    have hmem : r ∈ (flatReviews passes).reverse := by
      rw [List.mem_reverse, flatReviews, List.mem_flatten]
      exact ⟨pa.decision_reviews, List.mem_map.mpr ⟨pa, hpa, rfl⟩, hr⟩
    exact h r hmem (by simp [hrp])
  · intro h r hmem hpred
    rw [List.mem_reverse, flatReviews, List.mem_flatten] at hmem
    obtain ⟨l, hl, hrl⟩ := hmem
    obtain ⟨pa, hpa, rfl⟩ := List.mem_map.mp hl
    exact h ⟨pa, hpa, r, hrl, by simpa using hpred⟩

theorem mem_flatReviews (passes : List VerifierPass) (r : DecisionReview) :
    r ∈ flatReviews passes ↔ ∃ pa ∈ passes, r ∈ pa.decision_reviews := by
  rw [flatReviews, List.mem_flatten]
  constructor
  · rintro ⟨l, hl, hrl⟩
    obtain ⟨pa, hpa, rfl⟩ := List.mem_map.mp hl
    exact ⟨pa, hpa, hrl⟩
  · rintro ⟨pa, hpa, hr⟩
    exact ⟨pa.decision_reviews, List.mem_map.mpr ⟨pa, hpa, rfl⟩, hr⟩

theorem buildLatestMap_some_mem (passes : List VerifierPass) (p : String) (r : DecisionReview)
    (hp : p ≠ "") (h : lookupKey (buildLatestMap passes) p = some r) :
    r ∈ flatReviews passes ∧ r.path = p := by
  rw [buildLatestMap_lookup passes p hp] at h
  refine ⟨List.mem_reverse.mp (List.mem_of_find?_eq_some h), ?_⟩
  have := List.find?_some h
  simpa using this

theorem entryFor_path (latest : List (String × DecisionReview)) (driver : Json)
    (d : Decision) : (entryFor latest driver d).path = d.path := by
  rw [entryFor]
  cases lookupKey latest d.path <;> rfl

theorem issueFor_path (latest : List (String × DecisionReview)) (d : Decision) (i : Issue)
    (h : issueFor latest d = some i) : i.path = d.path := by
  rw [issueFor] at h
  cases hlk : lookupKey latest d.path with
  | none =>
      rw [hlk] at h
      simp only [Option.some.injEq] at h
      rw [← h]
  | some r =>
      rw [hlk] at h
      simp only at h
      by_cases hst : (r.status.getD "UNSURE" == "DISAGREE"
          || r.status.getD "UNSURE" == "UNSURE") = true
      · rw [if_pos hst] at h
        simp only [Option.some.injEq] at h
        rw [← h]
      · rw [if_neg hst] at h
        exact Option.noConfusion h

theorem path_unique :
    ∀ (ds : List Decision), (ds.map Decision.path).Nodup →
      ∀ d ∈ ds, ∀ d' ∈ ds, d.path = d'.path → d = d' := by
  intro ds
  induction ds with
  | nil => intro _ d hd; simp at hd
  | cons d0 rest ih =>
      intro hn d hd d' hd' hpp
      rw [List.map_cons, List.nodup_cons] at hn
      rcases List.mem_cons.mp hd with he | he
      · rcases List.mem_cons.mp hd' with he' | he'
        · rw [he, he']
        · subst he
          exact absurd (List.mem_map.mpr ⟨d', he', hpp.symm⟩) hn.1
      · rcases List.mem_cons.mp hd' with he' | he'
        · subst he'
          exact absurd (List.mem_map.mpr ⟨d, he, hpp⟩) hn.1
        · exact ih hn.2 d he d' he' hpp

theorem countP_path_unique (x : String) (hx : x ≠ "") :
    ∀ (l : List Decision), (l.map Decision.path).Nodup → (∃ d ∈ l, d.path = x) →
      l.countP (fun d' => (d'.path == x) && !(d'.path == "")) = 1 := by
  intro l
  induction l with
  | nil => rintro _ ⟨d, hd, _⟩; simp at hd
  | cons d0 rest ih =>
      intro hn hex
      rw [List.map_cons, List.nodup_cons] at hn
      by_cases h0 : d0.path = x
      · rw [List.countP_cons_of_pos _ _ (by simp [h0, hx])]
        have hz : rest.countP (fun d' => (d'.path == x) && !(d'.path == "")) = 0 := by
          rw [List.countP_eq_zero]
          intro d' hd' hp
          rw [Bool.and_eq_true, beq_iff_eq] at hp
          exact hn.1 (List.mem_map.mpr ⟨d', hd', hp.1.trans h0.symm⟩)
        rw [hz]
      · rw [List.countP_cons_of_neg _ _ (by simp [h0])]
        apply ih hn.2
        obtain ⟨d, hd, hdx⟩ := hex
        rcases List.mem_cons.mp hd with rfl | hd
        · exact absurd hdx h0
        · exact ⟨d, hd, hdx⟩

theorem missing_code_ne_verifier (st : String) :
    ("MISSING_VERIFIER_REVIEW" : String) ≠ "VERIFIER_" ++ st := by
  intro h
  have := congrArg (fun s : String => s.data.head?) h
  simp [String.data_append] at this

/-- C2: the final object's `needs_human_review` is true iff the combined
(reconciliation + rule-validation) issue list contains a CRITICAL issue; and
a run whose reviews are all AGREE, whose every decision path was reviewed,
and which triggers no rule-validation issue reports false. -/
theorem needs_human_review_iff (w : Json) (passes : List VerifierPass)
    (ds : List Decision) (model : String) :
    ((build_final_object w passes ds model).needs_human_review = true ↔
      ∃ i ∈ (build_final_object w passes ds model).issues, i.severity = "CRITICAL") ∧
    ((∀ pa ∈ passes, ∀ r ∈ pa.decision_reviews, r.status = some "AGREE") →
     (∀ d ∈ ds, d.path ≠ "" → ∃ pa ∈ passes, ∃ r ∈ pa.decision_reviews, r.path = d.path) →
     rule_validation (mergedRecordOf w passes) = [] →
     (build_final_object w passes ds model).needs_human_review = false) := by
  have hneed : (build_final_object w passes ds model).needs_human_review
      = ((build_final_object w passes ds model).issues.any
          (fun i => i.severity == "CRITICAL")) := rfl
  have hiss : (build_final_object w passes ds model).issues
      = (compile_critical_decision_report passes ds (mergedRecordOf w passes)).2
        ++ rule_validation (mergedRecordOf w passes) := rfl
  constructor
  · rw [hneed, List.any_eq_true]
    constructor
    · rintro ⟨i, hi, hb⟩
      exact ⟨i, hi, by simpa using hb⟩
    · rintro ⟨i, hi, hs⟩
      exact ⟨i, hi, by simp [hs]⟩
  · intro hag hcov hrule
    rw [hneed, hiss, hrule, List.append_nil]
    have h2 : (compile_critical_decision_report passes ds (mergedRecordOf w passes)).2
        = (ds.filter (fun d => !(d.path == ""))).filterMap
            (issueFor (buildLatestMap passes)) := by
      rw [compile_critical_decision_report, compileEntries_eq]
    have hcr : (compile_critical_decision_report passes ds (mergedRecordOf w passes)).2
        = [] := by
      rw [h2]
      rw [List.filterMap_eq_nil_iff]
      intro d hd
      rw [List.mem_filter] at hd
      have hdp : d.path ≠ "" := by simpa using hd.2
      have hex : ∃ pa ∈ passes, ∃ r ∈ pa.decision_reviews, r.path = d.path :=
        hcov d hd.1 hdp
      rcases hlk : lookupKey (buildLatestMap passes) d.path with _ | r
      · exact absurd hex (by
          have := (buildLatestMap_none_iff passes d.path hdp).mp hlk
          simpa using this)
      · have hmem := buildLatestMap_some_mem passes d.path r hdp hlk
        obtain ⟨pa, hpa, hr⟩ := (mem_flatReviews passes r).mp hmem.1
        have hstat : r.status = some "AGREE" := hag pa hpa r hr
        simp only [issueFor]
        rw [hlk]
        simp [hstat]
    rw [hcr]
    rfl

/-- C2 witness: a concrete all-AGREE run with no rule issues reports
`needs_human_review = false`, and the iff holds there. -/
theorem needs_human_review_iff_witness :
    ((build_final_object
        (Json.obj [("record", Json.obj [("sheets",
          Json.obj [("included_articles", Json.obj [("n_pts", Json.int 30)])])])])
        [⟨[⟨"/record/sheets/included_articles/n_pts", some "AGREE", Json.int 30, none,
            "ok", "ev"⟩], Json.null⟩]
        [⟨"/record/sheets/included_articles/n_pts", Json.int 30, "", none, true⟩]
        "m").needs_human_review = true ↔
      ∃ i ∈ (build_final_object
        (Json.obj [("record", Json.obj [("sheets",
          Json.obj [("included_articles", Json.obj [("n_pts", Json.int 30)])])])])
        [⟨[⟨"/record/sheets/included_articles/n_pts", some "AGREE", Json.int 30, none,
            "ok", "ev"⟩], Json.null⟩]
        [⟨"/record/sheets/included_articles/n_pts", Json.int 30, "", none, true⟩]
        "m").issues, i.severity = "CRITICAL") ∧
    (build_final_object
        (Json.obj [("record", Json.obj [("sheets",
          Json.obj [("included_articles", Json.obj [("n_pts", Json.int 30)])])])])
        [⟨[⟨"/record/sheets/included_articles/n_pts", some "AGREE", Json.int 30, none,
            "ok", "ev"⟩], Json.null⟩]
        [⟨"/record/sheets/included_articles/n_pts", Json.int 30, "", none, true⟩]
        "m").needs_human_review = false := by
  have h := needs_human_review_iff
    (Json.obj [("record", Json.obj [("sheets",
      Json.obj [("included_articles", Json.obj [("n_pts", Json.int 30)])])])])
    [⟨[⟨"/record/sheets/included_articles/n_pts", some "AGREE", Json.int 30, none,
        "ok", "ev"⟩], Json.null⟩]
    [⟨"/record/sheets/included_articles/n_pts", Json.int 30, "", none, true⟩]
    "m"
  refine ⟨h.1, h.2 ?_ ?_ ?_⟩
  · intro pa hpa r hr
    simp only [List.mem_singleton] at hpa
    subst hpa
    simp only [List.mem_singleton] at hr
    subst hr
    rfl
  · intro d hd hdp
    simp only [List.mem_singleton] at hd
    subst hd
    exact ⟨_, List.mem_singleton.mpr rfl, _, List.mem_singleton.mpr rfl, rfl⟩
  · rfl

/-- C3 counterexample: a leaf path present in the record after
reconciliation need not have any report entry — with a populated record and
an empty decision list the report is empty while the record holds a leaf
value. -/
theorem report_not_per_leaf_counterexample :
    (build_final_object
        (Json.obj [("record", Json.obj [("sheets",
          Json.obj [("included_articles", Json.obj [("n_pts", Json.int 30)])])])])
        [] [] "m").critical_decisions = [] ∧
    json_pointer_get (build_final_object
        (Json.obj [("record", Json.obj [("sheets",
          Json.obj [("included_articles", Json.obj [("n_pts", Json.int 30)])])])])
        [] [] "m").record "/sheets/included_articles/n_pts" = Json.int 30 :=
  ⟨rfl, rfl⟩

/-- C3 (amended): the critical-decision report has exactly one entry per
path of the (deduplicated) non-null decision list — not per leaf path of the
record; when every review status is one of AGREE/DISAGREE/UNSURE, each
entry's status lies in {AGREE, DISAGREE, UNSURE, MISSING}, it is MISSING iff
no verifier pass contains a review for the path, and a MISSING entry raises
a CRITICAL issue. -/
theorem report_per_decision (passes : List VerifierPass) (ds : List Decision) (driver : Json)
    (hnodup : (ds.map Decision.path).Nodup)
    (hstok : ∀ pa ∈ passes, ∀ r ∈ pa.decision_reviews,
      r.status.getD "UNSURE" = "AGREE" ∨ r.status.getD "UNSURE" = "DISAGREE" ∨
        r.status.getD "UNSURE" = "UNSURE") :
    ∀ d ∈ ds, d.path ≠ "" →
      ((compile_critical_decision_report passes ds driver).1.countP
          (fun e => e.path == d.path) = 1) ∧
      (∀ e ∈ (compile_critical_decision_report passes ds driver).1, e.path = d.path →
        (e.status = "AGREE" ∨ e.status = "DISAGREE" ∨ e.status = "UNSURE" ∨
          e.status = "MISSING") ∧
        (e.status = "MISSING" ↔
          ¬ ∃ pa ∈ passes, ∃ r ∈ pa.decision_reviews, r.path = d.path) ∧
        (e.status = "MISSING" →
          (⟨"CRITICAL", "MISSING_VERIFIER_REVIEW",
            "Decision not reviewed by verifier: " ++ d.path, d.path⟩ : Issue)
            ∈ (compile_critical_decision_report passes ds driver).2)) := by
  have h1 : (compile_critical_decision_report passes ds driver).1
      = (ds.filter (fun d => !(d.path == ""))).map
          (entryFor (buildLatestMap passes) driver) := by
    rw [compile_critical_decision_report, compileEntries_eq]
  have h2 : (compile_critical_decision_report passes ds driver).2
      = (ds.filter (fun d => !(d.path == ""))).filterMap
          (issueFor (buildLatestMap passes)) := by
    rw [compile_critical_decision_report, compileEntries_eq]
  intro d hd hdp
  constructor
  · rw [h1, List.countP_map]
    have hcg : ∀ d' ∈ ds.filter (fun d => !(d.path == "")),
        (((fun e => e.path == d.path) ∘ entryFor (buildLatestMap passes) driver) d' = true
          ↔ (fun d' => d'.path == d.path) d' = true) := by
      intro d' _
      simp only [Function.comp]
      rw [entryFor_path]
    rw [List.countP_congr hcg, List.countP_filter]
    exact countP_path_unique d.path hdp ds hnodup ⟨d, hd, rfl⟩
  · intro e he hep
    rw [h1] at he
    obtain ⟨d', hd', rfl⟩ := List.mem_map.mp he
    rw [List.mem_filter] at hd'
    rw [entryFor_path] at hep
    have hdd : d' = d := path_unique ds hnodup d' hd'.1 d hd hep
    subst hdd
    rcases hlk : lookupKey (buildLatestMap passes) d'.path with _ | r
    · have hstat : (entryFor (buildLatestMap passes) driver d').status = "MISSING" := by
        simp only [entryFor]
        rw [hlk]
      refine ⟨Or.inr (Or.inr (Or.inr hstat)), ?_, ?_⟩
      · have hno := (buildLatestMap_none_iff passes d'.path
          (by simpa using hd'.2)).mp hlk
        exact ⟨fun _ => hno, fun _ => hstat⟩
      · intro _
        rw [h2]
        apply List.mem_filterMap.mpr
        refine ⟨d', List.mem_filter.mpr ⟨hd'.1, hd'.2⟩, ?_⟩
        simp only [issueFor]
        rw [hlk]
    · have hstat : (entryFor (buildLatestMap passes) driver d').status
          = r.status.getD "UNSURE" := by
        simp only [entryFor]
        rw [hlk]
      have hmem := buildLatestMap_some_mem passes d'.path r (by simpa using hd'.2) hlk
      obtain ⟨pa, hpa, hr⟩ := (mem_flatReviews passes r).mp hmem.1
      have h3set := hstok pa hpa r hr
      have hnm : (entryFor (buildLatestMap passes) driver d').status ≠ "MISSING" := by
        rw [hstat]
        rcases h3set with h | h | h <;> rw [h] <;> decide
      refine ⟨?_, ?_, fun h => absurd h hnm⟩
      · rcases h3set with h | h | h
        · exact Or.inl (hstat.trans h)
        · exact Or.inr (Or.inl (hstat.trans h))
        · exact Or.inr (Or.inr (Or.inl (hstat.trans h)))
      · exact ⟨fun h => absurd h hnm,
               fun hno => absurd ⟨pa, hpa, r, hr, hmem.2⟩ hno⟩

/-- C3 witness: the amended theorem applied to a concrete one-decision run
with one AGREE review. -/
theorem report_per_decision_witness :
    ((compile_critical_decision_report
        [⟨[⟨"/a", some "AGREE", Json.int 1, none, "", ""⟩], Json.null⟩]
        [⟨"/a", Json.int 1, "", none, true⟩] (Json.obj [])).1.countP
        (fun e => e.path == "/a") = 1) ∧
    (∀ e ∈ (compile_critical_decision_report
        [⟨[⟨"/a", some "AGREE", Json.int 1, none, "", ""⟩], Json.null⟩]
        [⟨"/a", Json.int 1, "", none, true⟩] (Json.obj [])).1, e.path = "/a" →
      (e.status = "AGREE" ∨ e.status = "DISAGREE" ∨ e.status = "UNSURE" ∨
        e.status = "MISSING") ∧
      (e.status = "MISSING" ↔
        ¬ ∃ pa ∈ [(⟨[⟨"/a", some "AGREE", Json.int 1, none, "", ""⟩], Json.null⟩ : VerifierPass)],
          ∃ r ∈ pa.decision_reviews, r.path = "/a") ∧
      (e.status = "MISSING" →
        (⟨"CRITICAL", "MISSING_VERIFIER_REVIEW",
          "Decision not reviewed by verifier: " ++ "/a", "/a"⟩ : Issue)
          ∈ (compile_critical_decision_report
              [⟨[⟨"/a", some "AGREE", Json.int 1, none, "", ""⟩], Json.null⟩]
              [⟨"/a", Json.int 1, "", none, true⟩] (Json.obj [])).2)) := by
  have h := report_per_decision
    [⟨[⟨"/a", some "AGREE", Json.int 1, none, "", ""⟩], Json.null⟩]
    [⟨"/a", Json.int 1, "", none, true⟩] (Json.obj [])
    (by decide)
    (by
      intro pa hpa r hr
      simp only [List.mem_singleton] at hpa
      subst hpa
      simp only [List.mem_singleton] at hr
      subst hr
      exact Or.inl rfl)
    ⟨"/a", Json.int 1, "", none, true⟩ (List.mem_singleton.mpr rfl) (by decide)
  exact h

/-- C4 counterexample: an AGREE review is not accepted as-is — with an AGREE
review whose `proposed_value` key is present (value 7) against a driver
value of 5, the report entry's final value is 7, not the driver's 5. -/
theorem agree_not_as_is_counterexample :
    ((compile_critical_decision_report
        [⟨[⟨"/a", some "AGREE", Json.int 5, some (Json.int 7), "", ""⟩], Json.null⟩]
        [⟨"/a", Json.int 5, "", none, true⟩] (Json.obj [])).1.map
        (fun e => (e.status, e.final_value)))
      = [("AGREE", Json.int 7)] ∧ Json.int 7 ≠ Json.int 5 := by
  refine ⟨rfl, fun h => ?_⟩
  injection h with h2
  exact absurd h2 (by decide)

/-- C4 (amended): each report entry is built from the latest review for its
path (the last one across all passes in order); for every status — AGREE
included — the final value is the review's `proposed_value` whenever that
key is present (even null), else the review's `driver_value`; DISAGREE and
UNSURE, and only they, raise the CRITICAL `VERIFIER_<status>` issue for the
path. -/
theorem report_entry_from_latest (passes : List VerifierPass) (ds : List Decision)
    (driver : Json) (hnodup : (ds.map Decision.path).Nodup) :
    ∀ d ∈ ds, d.path ≠ "" →
      ∀ r, (flatReviews passes).reverse.find? (fun x => x.path == d.path) = some r →
      (∃ e ∈ (compile_critical_decision_report passes ds driver).1,
        e.path = d.path ∧
        e.status = r.status.getD "UNSURE" ∧
        e.final_value = (match r.proposed_value with
          | some v => v
          | none => r.driver_value) ∧
        e.explanation = r.explanation ∧ e.evidence = r.evidence) ∧
      ((r.status.getD "UNSURE" = "DISAGREE" ∨ r.status.getD "UNSURE" = "UNSURE") ↔
        (⟨"CRITICAL", "VERIFIER_" ++ r.status.getD "UNSURE",
          "Verifier status " ++ r.status.getD "UNSURE" ++ " for decision: " ++ d.path,
          d.path⟩ : Issue) ∈ (compile_critical_decision_report passes ds driver).2) := by
  have h1 : (compile_critical_decision_report passes ds driver).1
      = (ds.filter (fun d => !(d.path == ""))).map
          (entryFor (buildLatestMap passes) driver) := by
    rw [compile_critical_decision_report, compileEntries_eq]
  have h2 : (compile_critical_decision_report passes ds driver).2
      = (ds.filter (fun d => !(d.path == ""))).filterMap
          (issueFor (buildLatestMap passes)) := by
    rw [compile_critical_decision_report, compileEntries_eq]
  intro d hd hdp r hfind
  have hlk : lookupKey (buildLatestMap passes) d.path = some r := by
    rw [buildLatestMap_lookup passes d.path hdp]
    exact hfind
  constructor
  · refine ⟨entryFor (buildLatestMap passes) driver d, ?_, entryFor_path _ _ _, ?_, ?_, ?_, ?_⟩
    · rw [h1]
      exact List.mem_map.mpr ⟨d, List.mem_filter.mpr ⟨hd, by simpa using hdp⟩, rfl⟩
    · simp only [entryFor]
      rw [hlk]
    · simp only [entryFor]
      rw [hlk]
    · simp only [entryFor]
      rw [hlk]
    · simp only [entryFor]
      rw [hlk]
  · constructor
    · intro hst
      rw [h2]
      apply List.mem_filterMap.mpr
      refine ⟨d, List.mem_filter.mpr ⟨hd, by simpa using hdp⟩, ?_⟩
      simp only [issueFor]
      rw [hlk]
      rcases hst with h | h <;> simp [h]
    · intro hmem
      rw [h2] at hmem
      obtain ⟨d', hd'f, hif⟩ := List.mem_filterMap.mp hmem
      have hpath := issueFor_path _ d' _ hif
      have hd'ds := (List.mem_filter.mp hd'f).1
      have hdd : d' = d := path_unique ds hnodup d' hd'ds d hd (by rw [← hpath])
      subst hdd
      simp only [issueFor] at hif
      rw [hlk] at hif
      simp only at hif
      by_cases hcond : (r.status.getD "UNSURE" == "DISAGREE"
          || r.status.getD "UNSURE" == "UNSURE") = true
      · rcases Bool.or_eq_true _ _ |>.mp hcond with h | h
        · exact Or.inl (by simpa using h)
        · exact Or.inr (by simpa using h)
      · rw [if_neg hcond] at hif
        exact Option.noConfusion hif

/-- C4 witness: the amended theorem applied to a concrete run — the second
(latest) review for the path wins, and its present `proposed_value` is used
even though the status is AGREE. -/
theorem report_entry_from_latest_witness :
    (∃ e ∈ (compile_critical_decision_report
        [⟨[⟨"/a", some "DISAGREE", Json.int 5, some (Json.int 6), "", ""⟩], Json.null⟩,
         ⟨[⟨"/a", some "AGREE", Json.int 5, some (Json.int 7), "x", "y"⟩], Json.null⟩]
        [⟨"/a", Json.int 5, "", none, true⟩] (Json.obj [])).1,
      e.path = "/a" ∧
      e.status = (some "AGREE").getD "UNSURE" ∧
      e.final_value = (match some (Json.int 7) with
        | some v => v
        | none => Json.int 5) ∧
      e.explanation = "x" ∧ e.evidence = "y") ∧
    (((some "AGREE").getD "UNSURE" = "DISAGREE" ∨
      (some "AGREE").getD "UNSURE" = "UNSURE") ↔
      (⟨"CRITICAL", "VERIFIER_" ++ (some "AGREE").getD "UNSURE",
        "Verifier status " ++ (some "AGREE").getD "UNSURE" ++ " for decision: " ++ "/a",
        "/a"⟩ : Issue) ∈ (compile_critical_decision_report
        [⟨[⟨"/a", some "DISAGREE", Json.int 5, some (Json.int 6), "", ""⟩], Json.null⟩,
         ⟨[⟨"/a", some "AGREE", Json.int 5, some (Json.int 7), "x", "y"⟩], Json.null⟩]
        [⟨"/a", Json.int 5, "", none, true⟩] (Json.obj [])).2) := by
  have h := report_entry_from_latest
    [⟨[⟨"/a", some "DISAGREE", Json.int 5, some (Json.int 6), "", ""⟩], Json.null⟩,
     ⟨[⟨"/a", some "AGREE", Json.int 5, some (Json.int 7), "x", "y"⟩], Json.null⟩]
    [⟨"/a", Json.int 5, "", none, true⟩] (Json.obj []) (by decide)
    ⟨"/a", Json.int 5, "", none, true⟩ (List.mem_singleton.mpr rfl) (by decide)
    ⟨"/a", some "AGREE", Json.int 5, some (Json.int 7), "x", "y"⟩ (by rfl)
  exact h

/-- C1 counterexample: with zero verifier passes the pipeline does not
refuse — the output stage still produces the final object (and hands it to
the spreadsheet, report and audit writers). -/
theorem zero_passes_no_refusal_counterexample :
    pipeline_output (Json.obj []) [] [⟨"/a", Json.int 1, "", none, true⟩] "m"
      = some (build_final_object (Json.obj []) []
          [⟨"/a", Json.int 1, "", none, true⟩] "m") ∧
    pipeline_output (Json.obj []) [] [⟨"/a", Json.int 1, "", none, true⟩] "m"
      ≠ none := by
  refine ⟨rfl, fun h => ?_⟩
  exact Option.noConfusion h

/-- C1 (amended): with zero verifier passes the pipeline still writes its
output — the final object is produced unconditionally; in it every
critical-decision entry has status MISSING, and if any decision has a
nonempty path the object is flagged `needs_human_review`. -/
theorem zero_passes_behavior (w : Json) (ds : List Decision) (model : String) :
    pipeline_output w [] ds model = some (build_final_object w [] ds model) ∧
    (∀ e ∈ (build_final_object w [] ds model).critical_decisions,
      e.status = "MISSING") ∧
    ((∃ d ∈ ds, d.path ≠ "") →
      (build_final_object w [] ds model).needs_human_review = true) := by
  have hbf : (build_final_object w [] ds model).critical_decisions
      = (compile_critical_decision_report [] ds
          (mergedRecordOf w ([] : List VerifierPass))).1 := rfl
  have hnr : (build_final_object w [] ds model).needs_human_review
      = ((compile_critical_decision_report [] ds
            (mergedRecordOf w ([] : List VerifierPass))).2
          ++ rule_validation (mergedRecordOf w ([] : List VerifierPass))).any
          (fun i => i.severity == "CRITICAL") := rfl
  have h1 : (compile_critical_decision_report ([] : List VerifierPass) ds
        (mergedRecordOf w ([] : List VerifierPass))).1
      = (ds.filter (fun d => !(d.path == ""))).map
          (entryFor (buildLatestMap [])
            (mergedRecordOf w ([] : List VerifierPass))) := by
    rw [compile_critical_decision_report, compileEntries_eq]
  have h2 : (compile_critical_decision_report ([] : List VerifierPass) ds
        (mergedRecordOf w ([] : List VerifierPass))).2
      = (ds.filter (fun d => !(d.path == ""))).filterMap
          (issueFor (buildLatestMap [])) := by
    rw [compile_critical_decision_report, compileEntries_eq]
  refine ⟨rfl, ?_, ?_⟩
  · intro e he
    rw [hbf, h1] at he
    obtain ⟨d, hdf, rfl⟩ := List.mem_map.mp he
    rfl
  · rintro ⟨d, hd, hdp⟩
    rw [hnr]
    apply List.any_eq_true.mpr
    refine ⟨⟨"CRITICAL", "MISSING_VERIFIER_REVIEW",
      "Decision not reviewed by verifier: " ++ d.path, d.path⟩, ?_, rfl⟩
    apply List.mem_append_left
    rw [h2]
    apply List.mem_filterMap.mpr
    exact ⟨d, List.mem_filter.mpr ⟨hd, by simpa using hdp⟩, rfl⟩

/-- C1 witness: the amended theorem at a concrete zero-pass run with one
decision — the output exists, its single entry is MISSING, and the object
is flagged for human review. -/
theorem zero_passes_behavior_witness :
    pipeline_output (Json.obj []) [] [⟨"/b", Json.int 2, "", none, true⟩] "m"
      = some (build_final_object (Json.obj []) []
          [⟨"/b", Json.int 2, "", none, true⟩] "m") ∧
    (∀ e ∈ (build_final_object (Json.obj []) []
        [⟨"/b", Json.int 2, "", none, true⟩] "m").critical_decisions,
      e.status = "MISSING") ∧
    (build_final_object (Json.obj []) []
        [⟨"/b", Json.int 2, "", none, true⟩] "m").needs_human_review = true := by
  have h := zero_passes_behavior (Json.obj [])
    [⟨"/b", Json.int 2, "", none, true⟩] "m"
  exact ⟨h.1, h.2.1,
    h.2.2 ⟨⟨"/b", Json.int 2, "", none, true⟩, List.mem_singleton.mpr rfl, by decide⟩⟩
